import Mathlib

/-!
Verification of the quadratic python-wasm kernel's marshalling layer.

The definitions below are shallow embeddings of the Python sources in
`quadratic-kernels/python-wasm/quadratic_py/` (`utils.py`,
`transform_async.py`, `run_python.py`, `process_output.py`,
`figure_holder.py`, `code_trace.py`) and
`quadratic_api/quadratic.py`.  Python strings are modelled as Lean
`String`/`List Char`, Python ints as `Int`, Python floats as their
(canonical, shortest round-trip) `repr` strings, Python `None` as a
distinguished `PyValue` constructor, and Python exceptions as explicit
`Except`/`Option` results.  Loops with index jumps are modelled with an
explicit fuel argument that strictly exceeds the number of loop
iterations; the top-level wrappers supply sufficient fuel.
-/

/-! ## Decimal digits and Python `int`/`str` conversions -/

/-- Value of a decimal digit character. -/
def digitVal (c : Char) : Nat := c.toNat - '0'.toNat

/-- `'0' ≤ c ≤ '9'`. -/
def isDigitChar (c : Char) : Bool := decide ('0' ≤ c) && decide (c ≤ '9')

/-- Character for one decimal digit (argument taken modulo 10). -/
def digitCh (d : Nat) : Char := Char.ofNat ('0'.toNat + d % 10)

/-- Little-endian decimal digits of `n` (fuelled; `fuel > n` suffices).
`natRevDigits 0 = []`; the zero case is handled by the callers. -/
def natRevDigitsF : Nat → Nat → List Char
  | 0, _ => []
  | _ + 1, 0 => []
  | fuel + 1, n => digitCh (n % 10) :: natRevDigitsF fuel (n / 10)

/-- Decimal string of a natural number, as Python `str(n)` produces it. -/
def natStr (n : Nat) : String :=
  if n = 0 then "0" else ⟨(natRevDigitsF (n + 1) n).reverse⟩

/-- Python `str(n)` for an int: optional minus sign then decimal digits. -/
def intStr (n : Int) : String :=
  if n < 0 then "-" ++ natStr n.natAbs else natStr n.natAbs

/-- Fold a big-endian digit-character list to its value. -/
def parseNatChars (l : List Char) : Nat :=
  l.foldl (fun a c => a * 10 + digitVal c) 0

/-- Model of Python `int(s)`: optional sign, then one or more decimal
digits; leading zeros are accepted (`int("007") = 7`).  (Surrounding
whitespace and `_` separators, which CPython also accepts, are not
modelled.) -/
def pyIntParseL : List Char → Option Int
  | [] => none
  | c :: rest =>
    if c = '-' then
      if rest ≠ [] && rest.all isDigitChar then some (-(parseNatChars rest : Int)) else none
    else if c = '+' then
      if rest ≠ [] && rest.all isDigitChar then some (parseNatChars rest : Int) else none
    else if (c :: rest).all isDigitChar then some (parseNatChars (c :: rest) : Int) else none

def pyIntParse (s : String) : Option Int := pyIntParseL s.data

/-- Body of a decimal literal without sign: `digits`, `digits.digits?`,
or `.digits` — the shapes Python `float(s)` accepts among strings built
from `[-0123456789.]` (exponents and `inf`/`nan` are not needed by the
modelled payloads and are not modelled). -/
def floatBodyAccept (l : List Char) : Bool :=
  match l.span isDigitChar with
  | (intPart, rest) =>
    match rest with
    | [] => !intPart.isEmpty
    | '.' :: frac => (!intPart.isEmpty || !frac.isEmpty) && frac.all isDigitChar
    | _ => false

/-- Model of the strings Python `float(s)` accepts (decimal forms). -/
def pyFloatAcceptL : List Char → Bool
  | [] => false
  | c :: rest =>
    if c = '-' then floatBodyAccept rest
    else if c = '+' then floatBodyAccept rest
    else floatBodyAccept (c :: rest)

def pyFloatAccept (s : String) : Bool := pyFloatAcceptL s.data

/-- Exact rational value of a decimal literal (model of Python
`float(s)` for the accepted decimal shapes; float rounding is modelled
as exact rational arithmetic). -/
def floatBodyValue (l : List Char) : ℚ :=
  match l.span isDigitChar with
  | (intPart, rest) =>
    match rest with
    | '.' :: frac => (parseNatChars intPart : ℚ) + (parseNatChars frac : ℚ) / ((10 : ℚ) ^ frac.length)
    | _ => (parseNatChars intPart : ℚ)

/-- Model of Python `float(s)` on `[-0123456789.]` strings. -/
def pyFloatParseQL (l : List Char) : Option ℚ :=
  if pyFloatAcceptL l then
    match l with
    | [] => none
    | c :: rest =>
      if c = '-' then some (-(floatBodyValue rest))
      else if c = '+' then some (floatBodyValue rest)
      else some (floatBodyValue (c :: rest))
  else none

def pyFloatParseQ (s : String) : Option ℚ := pyFloatParseQL s.data

/-! ## Wire tags (`CellValueType` enum of `utils.py`, per cellvalue.rs) -/

inductive CellValueType where
  | Blank | Text | Number | Logical | Duration | Error | Html | Image
  | Date | Time | DateTime
deriving DecidableEq, Repr

/-- The `u8` wire value of each tag (the `Enum` values in `utils.py`;
note `7` is skipped there exactly as in the source). -/
def CellValueType.value : CellValueType → Nat
  | .Blank => 0
  | .Text => 1
  | .Number => 2
  | .Logical => 3
  | .Duration => 4
  | .Error => 5
  | .Html => 6
  | .Image => 8
  | .Date => 9
  | .Time => 10
  | .DateTime => 11

/-! ## Python value model -/

/-- A Python float, identified by its canonical (shortest round-trip)
`repr` string.  CPython guarantees `float(repr(f)) == f` and that
`repr` of a float never parses as an `int`; the predicate `validPyFloat`
below captures the part of that contract the theorems use. -/
structure PyFloat where
  rep : String
deriving DecidableEq, Repr

/-- `datetime.date` components. -/
structure PyDate where
  year : Nat
  month : Nat
  day : Nat
deriving DecidableEq, Repr

/-- `datetime.time` components (naive; `tzinfo` not modelled). -/
structure PyTime where
  hour : Nat
  minute : Nat
  second : Nat
  microsecond : Nat
deriving DecidableEq, Repr

/-- `datetime.datetime` components (naive). -/
structure PyDateTime where
  date : PyDate
  time : PyTime
deriving DecidableEq, Repr

/-- `datetime.timedelta` in its normalised representation
(`0 ≤ seconds < 86400`, `0 ≤ microseconds < 10^6`). -/
structure PyTimedelta where
  days : Int
  seconds : Nat
  microseconds : Nat
deriving DecidableEq, Repr

/-- `dateutil.relativedelta.relativedelta` scalar fields.  The fields
are rationals because `parse_duration` accumulates Python floats into
them (float arithmetic is modelled as exact rational arithmetic);
Python `==` between numeric fields is numeric equality, which rational
equality models. -/
structure RelDelta where
  years : ℚ
  months : ℚ
  days : ℚ
  hours : ℚ
  minutes : ℚ
  seconds : ℚ
  microseconds : ℚ
deriving DecidableEq, Repr

/-- The all-zero `relativedelta()`. -/
def RelDelta.zero : RelDelta := ⟨0, 0, 0, 0, 0, 0, 0⟩

/-- Native Python values crossing the codec boundary. -/
inductive PyValue where
  | none
  | str (s : String)
  | int (n : Int)
  | float (f : PyFloat)
  | bool (b : Bool)
  | date (d : PyDate)
  | time (t : PyTime)
  | datetime (dt : PyDateTime)
  | timedelta (td : PyTimedelta)
  | reldelta (rd : RelDelta)
  | list (l : List PyValue)

/-- Intersperse `", "` as Python's list `repr` does. -/
def joinComma : List String → String
  | [] => ""
  | [s] => s
  | s :: rest => s ++ ", " ++ joinComma rest

mutual
/-- Model of Python `repr(v)` (string escaping inside `repr` of a `str`
is not modelled; it does not arise in the theorems). -/
def pyReprV : PyValue → String
  | .none => "None"
  | .str s => "'" ++ s ++ "'"
  | .int n => intStr n
  | .float f => f.rep
  | .bool b => if b then "True" else "False"
  | .date _ => "datetime.date(...)"
  | .time _ => "datetime.time(...)"
  | .datetime _ => "datetime.datetime(...)"
  | .timedelta _ => "datetime.timedelta(...)"
  | .reldelta _ => "relativedelta(...)"
  | .list l => "[" ++ joinComma (pyReprList l) ++ "]"

def pyReprList : List PyValue → List String
  | [] => []
  | v :: vs => pyReprV v :: pyReprList vs
end

/-! ## ISO-8601 formatting and parsing (`isoformat` / `fromisoformat`) -/

/-- `%02d` for `n < 100`. -/
def pad2 (n : Nat) : List Char := [digitCh (n / 10), digitCh n]

/-- `%04d` for `n < 10000`. -/
def pad4 (n : Nat) : List Char := [digitCh (n / 1000), digitCh (n / 100), digitCh (n / 10), digitCh n]

/-- `%06d` for `n < 10^6`. -/
def pad6 (n : Nat) : List Char :=
  [digitCh (n / 100000), digitCh (n / 10000), digitCh (n / 1000),
   digitCh (n / 100), digitCh (n / 10), digitCh n]

/-- `date.isoformat()`. -/
def dateIso (d : PyDate) : String :=
  ⟨pad4 d.year ++ '-' :: pad2 d.month ++ '-' :: pad2 d.day⟩

/-- `time.isoformat()`: `HH:MM:SS`, with `.ffffff` iff microsecond ≠ 0. -/
def timeIsoChars (t : PyTime) : List Char :=
  pad2 t.hour ++ ':' :: pad2 t.minute ++ ':' :: pad2 t.second ++
    (if t.microsecond = 0 then [] else '.' :: pad6 t.microsecond)

def timeIso (t : PyTime) : String := ⟨timeIsoChars t⟩

/-- `datetime.isoformat()` with the default `'T'` separator. -/
def datetimeIso (dt : PyDateTime) : String :=
  ⟨(dateIso dt.date).data ++ 'T' :: timeIsoChars dt.time⟩

/-- Days per month, accounting for leap years (as `datetime` validates). -/
def daysInMonth (year month : Nat) : Nat :=
  if month = 2 then
    if year % 4 = 0 && (year % 100 ≠ 0 || year % 400 = 0) then 29 else 28
  else if month = 4 || month = 6 || month = 9 || month = 11 then 30
  else 31

/-- Validity as enforced by `datetime.date`. -/
def validDate (d : PyDate) : Bool :=
  1 ≤ d.year && d.year ≤ 9999 && 1 ≤ d.month && d.month ≤ 12 &&
    1 ≤ d.day && d.day ≤ daysInMonth d.year d.month

/-- Validity as enforced by `datetime.time`. -/
def validTime (t : PyTime) : Bool :=
  t.hour ≤ 23 && t.minute ≤ 59 && t.second ≤ 59 && t.microsecond ≤ 999999

def validDateTime (dt : PyDateTime) : Bool :=
  validDate dt.date && validTime dt.time

/-- Read exactly two digit characters. -/
def read2 (a b : Char) : Option Nat :=
  if isDigitChar a && isDigitChar b then some (digitVal a * 10 + digitVal b) else none

/-- Read exactly four digit characters. -/
def read4 (a b c d : Char) : Option Nat :=
  if isDigitChar a && isDigitChar b && isDigitChar c && isDigitChar d then
    some (((digitVal a * 10 + digitVal b) * 10 + digitVal c) * 10 + digitVal d)
  else none

/-- Read exactly six digit characters. -/
def read6 (a b c d e f : Char) : Option Nat :=
  match read4 a b c d, read2 e f with
  | some hi, some lo => some (hi * 100 + lo)
  | _, _ => none

/-- Parse `YYYY-MM-DD`, validating as `datetime.date` does. -/
def parseDatePart (l : List Char) : Option PyDate :=
  match l with
  | [y1, y2, y3, y4, '-', m1, m2, '-', d1, d2] =>
    match read4 y1 y2 y3 y4, read2 m1 m2, read2 d1 d2 with
    | some y, some m, some d =>
      if validDate ⟨y, m, d⟩ then some ⟨y, m, d⟩ else Option.none
    | _, _, _ => Option.none
  | _ => Option.none

/-- Parse `HH:MM:SS` or `HH:MM:SS.ffffff`, validating as
`datetime.time` does. -/
def parseTimePart (l : List Char) : Option PyTime :=
  match l with
  | [h1, h2, ':', m1, m2, ':', s1, s2] =>
    match read2 h1 h2, read2 m1 m2, read2 s1 s2 with
    | some h, some m, some s =>
      if validTime ⟨h, m, s, 0⟩ then some ⟨h, m, s, 0⟩ else Option.none
    | _, _, _ => Option.none
  | [h1, h2, ':', m1, m2, ':', s1, s2, '.', u1, u2, u3, u4, u5, u6] =>
    match read2 h1 h2, read2 m1 m2, read2 s1 s2, read6 u1 u2 u3 u4 u5 u6 with
    | some h, some m, some s, some u =>
      if validTime ⟨h, m, s, u⟩ then some ⟨h, m, s, u⟩ else Option.none
    | _, _, _, _ => Option.none
  | _ => Option.none

/-- Model of `datetime.fromisoformat` on the canonical shapes this
codec emits: `YYYY-MM-DD` and `YYYY-MM-DDTHH:MM:SS[.ffffff]`.  A string
without a date component (e.g. a bare `HH:MM:SS`) raises in CPython and
is `none` here. -/
def pyDatetimeFromIso (s : String) : Option PyDateTime :=
  let l := s.data
  if l.length = 10 then
    match parseDatePart l with
    | some d => some ⟨d, ⟨0, 0, 0, 0⟩⟩
    | Option.none => Option.none
  else
    match parseDatePart (l.take 10), l.drop 10 with
    | some d, 'T' :: timePart =>
      match parseTimePart timePart with
      | some t => some ⟨d, t⟩
      | Option.none => Option.none
    | _, _ => Option.none

/-! ## Case-insensitive first-occurrence replacement (`normalize_bool`) -/

/-- Lower-case one character as Python `str.lower` does on ASCII
(non-ASCII letters other than those appearing in the payloads are left
unchanged, like `µ`). -/
def pyLowerChar (c : Char) : Char :=
  if 'A' ≤ c ∧ c ≤ 'Z' then Char.ofNat (c.toNat + 32) else c

/-- Does `pat` (already lower-case) prefix `l` case-insensitively? -/
def ciPrefix (pat l : List Char) : Bool :=
  match pat, l with
  | [], _ => true
  | _ :: _, [] => false
  | p :: ps, c :: cs => (pyLowerChar c = p) && ciPrefix ps cs

/-- Index of the first case-insensitive occurrence of `pat` in `l`. -/
def ciFind (pat l : List Char) : Option Nat :=
  match l with
  | [] => if ciPrefix pat [] then some 0 else none
  | _ :: tl =>
    if ciPrefix pat l then some 0
    else (ciFind pat tl).map (· + 1)

/-- Model of `re.sub(pat, repl, value, count=1, flags=IGNORECASE)` for a
plain-word pattern. -/
def replaceFirstCI (pat repl : List Char) (l : List Char) : List Char :=
  match ciFind pat l with
  | some i => l.take i ++ repl ++ l.drop (i + pat.length)
  | none => l

/-- `normalize_bool` from `utils.py`: rewrite the first case-insensitive
`true`/`false` to the canonical Python literal. -/
def normalize_bool (value : String) : String :=
  let l1 := replaceFirstCI "true".data "True".data value.data
  ⟨replaceFirstCI "false".data "False".data l1⟩

/-- Partial model of `ast.literal_eval`, covering the literal shapes the
codec can receive on the Logical path: the keyword literals and
(canonically written) integer literals; everything else is a parse
failure.  (CPython parses more literal forms; none of the theorems
depend on them.) -/
def pyLiteralEval (s : String) : Except String PyValue :=
  if s = "True" then .ok (.bool true)
  else if s = "False" then .ok (.bool false)
  else if s = "None" then .ok .none
  else
    match pyIntParse s with
    | some n => if intStr n = s then .ok (.int n) else .error "ValueError"
    | Option.none => .error "ValueError"

/-! ## `parse_duration` (`utils.py`) -/

/-- Characters matched by the regex class `[-\d\.]`. -/
def durNumChar (c : Char) : Bool := isDigitChar c || c = '-' || c = '.'

/-- Characters matched by the regex class `[a-zµ]`. -/
def durUnitChar (c : Char) : Bool := (decide ('a' ≤ c) && decide (c ≤ 'z')) || c = 'µ'

/-- One `case` arm of `parse_duration`'s `match unit` (units not listed
fall through with no effect, as a Python `match` with no case does).
`w` adds `7*count` days: `relativedelta.weeks` is a property whose
setter rewrites `days`, and `ret.weeks += count` simplifies to exactly
`ret.days += 7*count`. -/
def applyDurUnit (acc : RelDelta) (unit : List Char) (count : ℚ) : RelDelta :=
  if unit = ['y'] then { acc with years := acc.years + count }
  else if unit = ['m', 'o'] then { acc with months := acc.months + count }
  else if unit = ['w'] then { acc with days := acc.days + 7 * count }
  else if unit = ['d'] then { acc with days := acc.days + count }
  else if unit = ['h'] then { acc with hours := acc.hours + count }
  else if unit = ['m'] then { acc with minutes := acc.minutes + count }
  else if unit = ['s'] then { acc with seconds := acc.seconds + count }
  else if unit = ['m', 's'] then { acc with microseconds := acc.microseconds + count * 1000 }
  else if unit = ['µ', 's'] then { acc with microseconds := acc.microseconds + count }
  else if unit = ['n', 's'] then { acc with microseconds := acc.microseconds + count / 1000 }
  else if unit = ['p', 's'] then { acc with microseconds := acc.microseconds + count / 1000 / 1000 }
  else if unit = ['f', 's'] then { acc with microseconds := acc.microseconds + count / 1000 / 1000 / 1000 }
  else if unit = ['a', 's'] then { acc with microseconds := acc.microseconds + count / 1000 / 1000 / 1000 / 1000 }
  else acc

/-- Scan loop of `parse_duration`: `re.finditer(r'([-\d\.]+)([a-zµ]+)', ...)`
over the lower-cased input, accumulating each matched group.  A number
run not followed by unit letters is retried one character later, as the
regex engine does.  `float(count)` failing (e.g. on `"."`) raises
`ValueError`, modelled as `.error`.  Fuel bounds the loop; each step
consumes at least one character, so `length + 1` suffices. -/
def parseDurGo : Nat → List Char → RelDelta → Except String RelDelta
  | 0, _, acc => .ok acc
  | _ + 1, [], acc => .ok acc
  | fuel + 1, c :: rest, acc =>
    if durNumChar c then
      let run := (c :: rest).takeWhile durNumChar
      let after := (c :: rest).dropWhile durNumChar
      let units := after.takeWhile durUnitChar
      if units.isEmpty then parseDurGo fuel rest acc
      else
        match pyFloatParseQ ⟨run⟩ with
        | some q => parseDurGo fuel (after.dropWhile durUnitChar) (applyDurUnit acc units q)
        | Option.none => .error "ValueError"
    else parseDurGo fuel rest acc

/-- `parse_duration` from `utils.py` (raising = `.error`). -/
def parse_duration (value : String) : Except String RelDelta :=
  let l := (value.data.map pyLowerChar)
  parseDurGo (l.length + 1) l RelDelta.zero

/-! ## Number formatting for `relativedelta`/float fields -/

/-- Least `k ≤ fuel` with `q * 10^k` integral. -/
def decExpF : Nat → ℚ → Nat
  | 0, _ => 0
  | fuel + 1, q => if q.den = 1 then 0 else decExpF fuel (q * 10) + 1

/-- Python `str` of a numeric `relativedelta` field: integers print as
integers; non-integer (float) fields print as their decimal expansion
(all rationals produced by `parse_duration` have finite decimal
expansions; float shortest-repr rounding is not modelled). -/
def qNumStr (q : ℚ) : String :=
  if q.den = 1 then intStr q.num
  else
    let k := decExpF 64 q
    let scaled := q * (10 : ℚ) ^ k
    let digits := natStr (scaled.num.natAbs)
    let pad := if digits.length ≤ k then String.mk (List.replicate (k + 1 - digits.length) '0') ++ digits else digits
    let cut := pad.length - k
    (if q < 0 then "-" else "") ++ ⟨pad.data.take cut⟩ ++ "." ++ ⟨pad.data.drop cut⟩

/-- The `f"{days}d {seconds}s {microseconds}µs"` format for `timedelta`. -/
def timedeltaFormat (td : PyTimedelta) : String :=
  intStr td.days ++ "d " ++ natStr td.seconds ++ "s " ++ natStr td.microseconds ++ "µs"

/-- The `f"{years}y {months}mo {days}d {hours}h {minutes}m {seconds}s
{microseconds}µs"` format for `relativedelta`. -/
def relDeltaFormat (rd : RelDelta) : String :=
  qNumStr rd.years ++ "y " ++ qNumStr rd.months ++ "mo " ++ qNumStr rd.days ++ "d " ++
    qNumStr rd.hours ++ "h " ++ qNumStr rd.minutes ++ "m " ++ qNumStr rd.seconds ++ "s " ++
    qNumStr rd.microseconds ++ "µs"

/-! ## TypeCodec (`to_quadratic_type` / `to_python_type`, `utils.py`) -/

/-- Model of Python `str(v)`. -/
def pyStr (v : PyValue) : String :=
  match v with
  | .str s => s
  | .bool b => if b then "True" else "False"
  | .int n => intStr n
  | .float f => f.rep
  | .none => "None"
  | _ => pyReprV v

/-- `to_quadratic_type` from `utils.py`.  The first `try` block returns
Blank for `None`/`""` and Text for any `str`; its trailing
`ast.literal_eval(value)` raises (and is swallowed) for every remaining
value, leaving `value` unchanged, so it does not appear here.  The
second `try` block dispatches on runtime type; `value.normalized()`
raises `AttributeError` for types with no such method, landing in the
`except` fallback `(str(value), Text)`, which the final catch-all arm
models.  NumPy/pandas scalar types are outside the modelled domain. -/
def to_quadratic_type (value : PyValue) : String × Nat :=
  match value with
  | .none => ("", CellValueType.Blank.value)
  | .str s =>
    if s = "" then ("", CellValueType.Blank.value) else (s, CellValueType.Text.value)
  | .int n => (intStr n, CellValueType.Number.value)
  | .float f => (f.rep, CellValueType.Number.value)
  | .bool b => ((if b then "True" else "False"), CellValueType.Logical.value)
  | .datetime dt => (datetimeIso dt, CellValueType.DateTime.value)
  | .date d => (dateIso d, CellValueType.Date.value)
  | .time t => (timeIso t, CellValueType.Time.value)
  | .timedelta td => (timedeltaFormat td, CellValueType.Duration.value)
  | .reldelta rd => (relDeltaFormat rd, CellValueType.Duration.value)
  | v => (pyStr v, CellValueType.Text.value)

/-- `number_type` from `utils.py`: `int(value)`, else `float(value)`,
else the raw string.  A successful float parse yields the float whose
canonical repr the model identifies with the accepted string. -/
def number_type (value : String) : PyValue :=
  match pyIntParse value with
  | some n => .int n
  | Option.none => if pyFloatAccept value then .float ⟨value⟩ else .str value

/-- The body of `to_python_type`'s `try` block: each tag's decoder, with
raising sub-operations surfaced as `.error`. -/
def toPythonTypeCore (value : String) (type_u8 : Nat) : Except String PyValue :=
  if type_u8 = CellValueType.Blank.value then .ok .none
  else if type_u8 = CellValueType.Text.value then .ok (.str value)
  else if type_u8 = CellValueType.Number.value then .ok (number_type value)
  else if type_u8 = CellValueType.Logical.value then pyLiteralEval (normalize_bool value)
  else if type_u8 = CellValueType.Duration.value then (parse_duration value).map .reldelta
  else if type_u8 = CellValueType.Date.value then
    match pyDatetimeFromIso value with
    | some dt => .ok (.date dt.date)
    | Option.none => .error "ValueError"
  else if type_u8 = CellValueType.Time.value then
    match pyDatetimeFromIso value with
    | some dt => .ok (.time dt.time)
    | Option.none => .error "ValueError"
  else if type_u8 = CellValueType.DateTime.value then
    match pyDatetimeFromIso value with
    | some dt => .ok (.datetime dt)
    | Option.none => .error "ValueError"
  else .ok (.str value)

/-- `to_python_type` from `utils.py`: the `try`/bare-`except` wrapper —
any failure returns the payload string unchanged. -/
def to_python_type (value : String) (type_u8 : Nat) : PyValue :=
  match toPythonTypeCore value type_u8 with
  | .ok v => v
  | .error _ => .str value

/-- The body of `to_python_type_df`'s `try` block: identical to
`to_python_type` except there is no Duration case (tag 4 falls through
to `case _: return value`). -/
def toPythonTypeDfCore (value : String) (type_u8 : Nat) : Except String PyValue :=
  if type_u8 = CellValueType.Blank.value then .ok .none
  else if type_u8 = CellValueType.Text.value then .ok (.str value)
  else if type_u8 = CellValueType.Number.value then .ok (number_type value)
  else if type_u8 = CellValueType.Logical.value then pyLiteralEval (normalize_bool value)
  else if type_u8 = CellValueType.Date.value then
    match pyDatetimeFromIso value with
    | some dt => .ok (.date dt.date)
    | Option.none => .error "ValueError"
  else if type_u8 = CellValueType.Time.value then
    match pyDatetimeFromIso value with
    | some dt => .ok (.time dt.time)
    | Option.none => .error "ValueError"
  else if type_u8 = CellValueType.DateTime.value then
    match pyDatetimeFromIso value with
    | some dt => .ok (.datetime dt)
    | Option.none => .error "ValueError"
  else .ok (.str value)

/-- `to_python_type_df` from `utils.py`. -/
def to_python_type_df (value : String) (type_u8 : Nat) : PyValue :=
  match toPythonTypeDfCore value type_u8 with
  | .ok v => v
  | .error _ => .str value

/-- The part of CPython's float contract the theorems rely on: the
canonical repr of a float never parses as an `int`, and `float()`
accepts it (returning the same float, which the repr-identification
makes definitional). -/
def validPyFloat (f : PyFloat) : Bool :=
  (pyIntParse f.rep).isNone && pyFloatAccept f.rep

/-! ## SourceRewriter (`transform_async.py`) -/

/-- Python slice `l[a:b]` for non-negative bounds (empty when `a ≥ b`). -/
def listSlice (l : List Char) (a b : Nat) : List Char := (l.take b).drop a

/-- The inner `while` of `_find_matching_close_paren` that skips a
single-quoted string body: starting just after the opening quote, a
backslash skips two characters, the closing quote stops the loop
(position after it), anything else advances one.  Returns the new `i`
(which may exceed the length, exactly as `i += 2` can).  Each step
advances at least one position, so fuel `length + 2` suffices. -/
def skipStrF : Nat → List Char → Nat → Char → Nat
  | 0, _, i, _ => i
  | fuel + 1, code, i, quote =>
    if i < code.length then
      let c := code.getD i ' '
      if c = '\\' then skipStrF fuel code (i + 2) quote
      else if c = quote then i + 1
      else skipStrF fuel code (i + 1) quote
    else i

/-- `code.find(quote*3, start)`: first index `k ≥ start` where the
triple quote occurs (`none` models Python's `-1`). -/
def find3F : Nat → List Char → Char → Nat → Option Nat
  | 0, _, _, _ => none
  | fuel + 1, code, quote, start =>
    if start + 3 ≤ code.length then
      if listSlice code start (start + 3) = [quote, quote, quote] then some start
      else find3F fuel code quote (start + 1)
    else none

/-- The main loop of `_find_matching_close_paren` (`transform_async.py`):
depth-tracking scan from `i` that skips string literals (triple-quoted
by `str.find`, single-quoted by the inner loop honouring backslash
escapes).  `some k` is the index of the matching `')'`; `none` models
the `-1` failure return.  Fuel `length + 2` suffices (every iteration
advances `i`). -/
def scanF : Nat → List Char → Nat → Nat → Option Nat
  | 0, _, _, _ => none
  | fuel + 1, code, i, depth =>
    if depth = 0 then some (i - 1)
    else if i < code.length then
      let c := code.getD i ' '
      if c = '"' ∨ c = '\'' then
        if listSlice code i (i + 3) = [c, c, c] then
          match find3F (code.length + 1) code c (i + 3) with
          | some e => scanF fuel code (e + 3) depth
          | none => scanF fuel code code.length depth
        else scanF fuel code (skipStrF (code.length + 2) code (i + 1) c) depth
      else if c = '(' then scanF fuel code (i + 1) (depth + 1)
      else if c = ')' then scanF fuel code (i + 1) (depth - 1)
      else scanF fuel code (i + 1) depth
    else none

/-- `_find_matching_close_paren(code, open_paren_index)`. -/
def findMatchingCloseParen (code : List Char) (openParenIndex : Nat) : Option Nat :=
  scanF (code.length + 2) code (openParenIndex + 1) 1

/-- Regex `\w` (ASCII portion, as the modelled snippets are ASCII). -/
def isWordChar (c : Char) : Bool := c.isAlphanum || c = '_'

/-- Regex `\s` (ASCII portion). -/
def isPyWs (c : Char) : Bool :=
  c = ' ' || c = '\t' || c = '\n' || c = '\r' || c = '\x0b' || c = '\x0c'

/-- One attempted match of `r'\bq\.cells\s*\('` at position `i`:
word boundary, the literal `q.cells`, greedy whitespace, then `'('`.
Returns the match end (index just past the `'('`). -/
def tryMatchQCells (code : List Char) (i : Nat) : Option Nat :=
  if (decide (i = 0) || !isWordChar (code.getD (i - 1) ' ')) &&
      listSlice code i (i + 7) = "q.cells".data then
    let j := i + 7
    let k := j + ((code.drop j).takeWhile isPyWs).length
    if code.getD k ' ' = '(' then some (k + 1) else none
  else none

/-- `re.finditer(r'\bq\.cells\s*\(', code)`: left-to-right,
non-overlapping `(start, end)` pairs.  Fuel `length + 1` suffices
(every step advances the scan position). -/
def findMatchesF : Nat → List Char → Nat → List (Nat × Nat)
  | 0, _, _ => []
  | fuel + 1, code, i =>
    if i < code.length then
      match tryMatchQCells code i with
      | some e => (i, e) :: findMatchesF fuel code e
      | none => findMatchesF fuel code (i + 1)
    else []

def findMatches (code : List Char) : List (Nat × Nat) :=
  findMatchesF (code.length + 1) code 0

/-- The rewrite loop of `add_await_to_cell_calls`: for each regex match,
locate the matching close paren; on failure `continue`; otherwise emit
`code[last_end:match.start()]` (empty when the slice is inverted, as in
Python), the wrapped call, and carry on after the close paren; finally
append `code[last_end:]`. -/
def buildAwaitResult : List (Nat × Nat) → List Char → Nat → List Char
  | [], code, lastEnd => code.drop lastEnd
  | (s, e) :: ms, code, lastEnd =>
    let openIdx := e - 1
    match findMatchingCloseParen code openIdx with
    | Option.none => buildAwaitResult ms code lastEnd
    | some closeIdx =>
      listSlice code lastEnd s ++ "(await q.cells(".data ++
        listSlice code (openIdx + 1) closeIdx ++ "))".data ++
        buildAwaitResult ms code (closeIdx + 1)

/-- `add_await_to_cell_calls` from `transform_async.py`. -/
def add_await_to_cell_calls (code : String) : String :=
  ⟨buildAwaitResult (findMatches code.data) code.data 0⟩

/-! ## A grammar of call-argument texts (for the rewriter theorems)

`ArgTok` generates the argument texts of a call: ordinary characters,
parenthesised groups (e.g. nested calls), single-quoted string literals
with backslash escapes, and triple-quoted literals.  String-literal
bodies may contain parentheses and the opposite quote; this is the
infinite family over which the close-paren scanner is verified. -/

/-- An item inside a single-quoted literal: a plain character (neither
the delimiter nor a backslash) or a backslash-escaped character. -/
inductive SItem where
  | raw (c : Char)
  | esc (c : Char)
deriving DecidableEq, Repr

mutual
inductive ArgTok where
  | raw (c : Char)
  | strlit (q : Char) (items : List SItem)
  | triple (q : Char) (body : List Char)
  | paren (inner : ArgToks)
deriving DecidableEq, Repr

inductive ArgToks where
  | nil
  | cons (t : ArgTok) (ts : ArgToks)
deriving DecidableEq, Repr
end

def renderSItem : SItem → List Char
  | .raw c => [c]
  | .esc c => ['\\', c]

def renderSItems : List SItem → List Char
  | [] => []
  | it :: its => renderSItem it ++ renderSItems its

mutual
def renderArgTok : ArgTok → List Char
  | .raw c => [c]
  | .strlit q items => q :: renderSItems items ++ [q]
  | .triple q body => q :: q :: q :: body ++ [q, q, q]
  | .paren inner => '(' :: renderArgToks inner ++ [')']

def renderArgToks : ArgToks → List Char
  | .nil => []
  | .cons t ts => renderArgTok t ++ renderArgToks ts
end

/-- Does `l` contain `[q,q,q]` starting at some position? -/
def hasTriple (q : Char) : List Char → Bool
  | a :: b :: c :: rest => (a = q && b = q && c = q) || hasTriple q (b :: c :: rest)
  | _ => false

def wfSItem (q : Char) : SItem → Bool
  | .raw c => c ≠ q && c ≠ '\\'
  | .esc _ => true

def wfSItems (q : Char) : List SItem → Bool
  | [] => true
  | it :: its => wfSItem q it && wfSItems q its

mutual
/-- Wellformedness making the renders lex unambiguously: a raw token is
not a quote or a paren; a single-quoted literal has a valid nonempty
body (so its opener is not mistaken for a triple quote); a triple-quoted
body reaches its own closing delimiter first. -/
def wfArgTok : ArgTok → Bool
  | .raw c => c ≠ '(' && c ≠ ')' && c ≠ '"' && c ≠ '\''
  | .strlit q items => (q = '"' || q = '\'') && !items.isEmpty && wfSItems q items
  | .triple q body => (q = '"' || q = '\'') && !hasTriple q (body ++ [q, q])
  | .paren inner => wfArgToks inner

def wfArgToks : ArgToks → Bool
  | .nil => true
  | .cons t ts => wfArgTok t && wfArgToks ts
end

/-! ## Diagnostics (`code_trace.py`) -/

/-- `str.rstrip()` (ASCII whitespace). -/
def pyRstrip (s : String) : String := ⟨(s.data.reverse.dropWhile isPyWs).reverse⟩

def countNewlines (l : List Char) : Nat := l.countP (· = '\n')

/-- `get_return_line` from `code_trace.py`: `code.rstrip()` then
`code.count("\n") + 1` — the 1-based line count of the snippet. -/
def get_return_line (code : String) : Nat := countNewlines (pyRstrip code).data + 1

/-! ## FigureGate (`figure_holder.py` / `plotly_patch.py`) -/

/-- The line a `FigureDisplayError` carries: an int from the innermost
user frame, or the string `"unknown"` when `get_user_frames()` returned
`None`. -/
inductive LineVal where
  | line (n : Int)
  | unknown
deriving DecidableEq, Repr

/-- The slice of `inspect.FrameInfo` the holder reads. -/
structure FrameInfo where
  lineno : Int
deriving DecidableEq, Repr

inductive SetResultErr where
  | figureDisplayError (source_line : LineVal)
  | indexError
deriving DecidableEq, Repr

/-- Lines 21–24 of `figure_holder.py`: `user_call_frames[0].lineno if
user_call_frames is not None else "unknown"`.  Indexing an *empty*
frame list raises `IndexError` (before any conflict check runs). -/
def resolveUserLine : Option (List FrameInfo) → Except SetResultErr LineVal
  | Option.none => .ok .unknown
  | some [] => .error .indexError
  | some (f :: _) => .ok (.line f.lineno)

/-- `FigureHolder` state: `_result` and `_result_set_from_line`. -/
structure FigureHolder where
  result : Option PyValue
  result_set_from_line : Option LineVal

def FigureHolder.init : FigureHolder := ⟨Option.none, Option.none⟩

/-- `FigureHolder.set_result` (`figure_holder.py`, identically
`plotly_patch.py`): resolve the calling line, raise
`FigureDisplayError` (carrying that line) if a result is already
stored, else record the figure and the line.  A raise happens before
any mutation, so the returned state is unchanged on error. -/
def set_result (st : FigureHolder) (figure : Option PyValue)
    (frames : Option (List FrameInfo)) : FigureHolder × Option SetResultErr :=
  match resolveUserLine frames with
  | .error e => (st, some e)
  | .ok cur =>
    if st.result.isSome then (st, some (.figureDisplayError cur))
    else ({ result := figure, result_set_from_line := some cur }, Option.none)

/-! ## The figure/result conflict check (`run_python.py`, lines 242–253) -/

inductive RunErrKind where
  | resultConflict
deriving DecidableEq, Repr

/-- Outcome of the post-evaluation conflict check. -/
inductive TailOutcome where
  | errorResult (kind : RunErrKind) (line_number : Nat) (success : Bool)
  | ok (output_value : Option PyValue)

/-- `if plotly_html is not None and plotly_html.result is not None:` —
when the evaluation also produced an output value or array, build the
`RuntimeError` ("Cannot return result from cell that has displayed a
figure") and return `error_result(..., code_trace.get_return_line(code))`
(whose dict carries `success: False`); otherwise the figure becomes the
output value. -/
def figureResultConflictCheck (plotly_html : Option FigureHolder)
    (output_value : Option PyValue) (array_output : Option (List PyValue))
    (code : String) : TailOutcome :=
  match plotly_html with
  | some holder =>
    match holder.result with
    | some fig =>
      if output_value.isSome ∨ array_output.isSome then
        .errorResult .resultConflict (get_return_line code) false
      else .ok (some fig)
    | Option.none => .ok output_value
  | Option.none => .ok output_value

/-! ## OutputShaper (`process_output.py`) -/

/-- Typed cells produced by the shaper: `to_quadratic_type` yields an
integer tag, while the ragged-row padding literal is `("", "blank")`
with a *string* tag, so the second component is a sum. -/
inductive QTag where
  | int (n : Nat)
  | str (s : String)
deriving DecidableEq, Repr

abbrev QCell := String × QTag

def toQuadCell (v : PyValue) : QCell :=
  let p := to_quadratic_type v
  (p.1, QTag.int p.2)

mutual
/-- `isListEmpty` from `process_output.py`: a list all of whose elements
are (recursively) empty lists; non-lists are not "empty". -/
def isListEmpty : PyValue → Bool
  | .list l => isListEmptyAll l
  | _ => false

def isListEmptyAll : List PyValue → Bool
  | [] => true
  | v :: vs => isListEmpty v && isListEmptyAll vs
end

/-- `type(v).__name__`. -/
def pyTypeName : PyValue → String
  | .none => "NoneType"
  | .str _ => "str"
  | .int _ => "int"
  | .float _ => "float"
  | .bool _ => "bool"
  | .date _ => "date"
  | .time _ => "time"
  | .datetime _ => "datetime"
  | .timedelta _ => "timedelta"
  | .reldelta _ => "relativedelta"
  | .list _ => "list"

/-- `len(v)`, `none` when `len` raises `TypeError`. -/
def pyLen : PyValue → Option Nat
  | .list l => some l.length
  | .str s => some s.length
  | _ => Option.none

/-- `v[c]` for sized values (only evaluated in bounds by the caller). -/
def pyIndexD (v : PyValue) (c : Nat) : PyValue :=
  match v with
  | .list l => l.getD c .none
  | .str s => .str ⟨[s.data.getD c ' ']⟩
  | _ => .none

inductive TypedArrayOut where
  | oneD (cells : List QCell)
  | twoD (rows : List (List QCell))
deriving DecidableEq, Repr

structure ProcessedOutput where
  typed_array_output : Option TypedArrayOut
  array_output : Option (List PyValue)
  output_value : Option QCell
  output_type : String
  output_size : Option (Nat × Nat)

/-- `process_output_value` from `process_output.py`, restricted to the
modelled `PyValue` domain (the pandas `Series`/`DataFrame` and plotly
figure `isinstance` branches concern runtime types outside it and never
fire).  The `max(len(row) for row in array_output)` of the 2-D branch
raises `TypeError` when a row has no `len`, surfaced as `.error`. -/
def process_output_value (output_value : PyValue) : Except String ProcessedOutput :=
  let output_type := pyTypeName output_value
  let (array_output, ov1, output_size) :
      Option (List PyValue) × PyValue × Option (Nat × Nat) :=
    match output_value with
    | .list l =>
      if l.length > 0 && !isListEmpty (.list l) then
        match l.head? with
        | some (.list r0) => (some l, .list l, some (r0.length, l.length))
        | _ => (some l, .list l, some (1, l.length))
      else (Option.none, .str "", Option.none)
    | v => (Option.none, v, Option.none)
  let out_val : Option QCell :=
    match array_output, ov1 with
    | some _, _ => Option.none
    | Option.none, .none => Option.none
    | Option.none, v => some (toQuadCell v)
  match array_output with
  | Option.none =>
    .ok { typed_array_output := Option.none, array_output := Option.none,
          output_value := out_val, output_type := output_type,
          output_size := output_size }
  | some arr =>
    let is2d : Bool :=
      match arr.head? with
      | some (.list r) => r.length > 0
      | _ => false
    if is2d then
      match arr.mapM pyLen with
      | Option.none => .error "TypeError"
      | some lens =>
        let len2 := lens.foldl max 0
        let grid := (List.range arr.length).map fun r =>
          (List.range len2).map fun c =>
            if lens.getD r 0 ≤ c then (("", QTag.str "blank") : QCell)
            else toQuadCell (pyIndexD (arr.getD r .none) c)
        .ok { typed_array_output := some (.twoD grid), array_output := some arr,
              output_value := out_val, output_type := output_type,
              output_size := output_size }
    else
      .ok { typed_array_output := some (.oneD (arr.map toQuadCell)),
            array_output := some arr, output_value := out_val,
            output_type := output_type, output_size := output_size }

/-! ## RangeFetcher, legacy `getCells` (`run_python.py`, lines 102–139) -/

/-- `run_python.py`'s own `to_python_type` (string type names;
`bool(value)` on a string is its non-emptiness). -/
def to_python_type_name (value : String) (value_type : String) : PyValue :=
  if value_type = "number" then number_type value
  else if value_type = "text" then .str value
  else if value_type = "logical" then .bool (value ≠ "")
  else .str value

/-- A cell of the `getCellsDB` host response. -/
structure JsCell where
  x : Int
  y : Int
  value : String
  type_name : String
deriving DecidableEq, Repr

/-- What `getCells` returns: a `pd.Series` of just the response cells,
or a dense `pd.DataFrame` (cells `none` = the `NaN` the empty frame is
created with). -/
inductive GetCellsRes where
  | series (vals : List PyValue)
  | frame (rows : List (List (Option PyValue))) (headerRow : Option (List (Option PyValue)))

/-- Python `range(a, b + 1)` as a list. -/
def intRangeList (a b : Int) : List Int :=
  (List.range (b + 1 - a).toNat).map fun (k : Nat) => a + (k : Int)

/-- The access-log loop of `getCells`: `for x in range(x0, x1+1): for y
in range(y0, y1+1): cells_accessed.append([x, y, sheet])`. -/
def scanOrderLog (p0 p1 : Int × Int) (sheet : Option String) :
    List (Int × Int × Option String) :=
  (intRangeList p0.1 p1.1).flatMap fun x =>
    (intRangeList p0.2 p1.2).map fun y => (x, y, sheet)

/-- `df.at[r, c] = v` for in-range integer labels (out-of-range pandas
label assignment would enlarge the frame; the theorems' hypotheses keep
all response cells inside the range, so it is modelled as a no-op). -/
def gridSet (g : List (List (Option PyValue))) (r c : Int) (v : Option PyValue) :
    List (List (Option PyValue)) :=
  if 0 ≤ r ∧ r < (g.length : Int) then
    match g.get? r.toNat with
    | some row =>
      if 0 ≤ c ∧ c < (row.length : Int) then g.set r.toNat (row.set c.toNat v) else g
    | Option.none => g
  else g

/-- `getCells` from the legacy `run_python.py`: log every coordinate of
the inclusive rectangle in x-major scan order, then — for a range of
width 1 *or* height 1 — return a `pd.Series` of only the response
cells; otherwise build the `height × width` `DataFrame` (initially all
`NaN`), place each response cell at `(y - y0, x - x0)`, and optionally
promote the first row to the header. -/
def getCells (p0 p1 : Int × Int) (sheet : Option String) (first_row_header : Bool)
    (cells : List JsCell) : List (Int × Int × Option String) × GetCellsRes :=
  let cells_accessed := scanOrderLog p0 p1 sheet
  let w := p1.1 - p0.1 + 1
  let h := p1.2 - p0.2 + 1
  if w = 1 ∨ h = 1 then
    (cells_accessed, .series (cells.map fun c => to_python_type_name c.value c.type_name))
  else
    let init := List.replicate h.toNat (List.replicate w.toNat (Option.none : Option PyValue))
    let filled := cells.foldl
      (fun g c => gridSet g (c.y - p0.2) (c.x - p0.1)
        (some (to_python_type_name c.value c.type_name))) init
    if first_row_header then (cells_accessed, .frame (filled.drop 1) filled.head?)
    else (cells_accessed, .frame filled Option.none)

/-! ## RangeFetcher, `_process_cells_response` (`quadratic.py`, lines 127–156) -/

structure A1Cell where
  x : Int
  y : Int
  v : String
  t : Nat
deriving DecidableEq, Repr

/-- `response.values` of `getCellsA1`. -/
structure A1Values where
  x : Int
  y : Int
  w : Nat
  h : Nat
  cells : List A1Cell
  has_headers : Bool

structure A1Response where
  error : Option String
  values : Option A1Values

inductive A1Result where
  | noneResult
  | scalar (v : PyValue)
  | frame (rows : List (List (Option PyValue))) (columns : Option (List String))

def pyStrOpt : Option PyValue → String
  | some v => pyStr v
  | Option.none => "None"

/-- `_process_cells_response` from `quadratic.py`: raise on a response
error; `None` result passes through; a 1×1 range short-cuts to a scalar
via `result_to_value` (indexing `result.cells[0]` raises `IndexError`
when the response is empty); otherwise fill a dense `h × w` grid of
`None` with `to_python_type_df`-decoded cells at `(y - result.y,
x - result.x)`, then optionally move the stringified first row to the
column labels. -/
def process_cells_response (response : A1Response) (first_row_header : Bool) :
    Except String A1Result :=
  match response.error with
  | some e => .error e
  | Option.none =>
    match response.values with
    | Option.none => .ok .noneResult
    | some result =>
      if result.w = 1 ∧ result.h = 1 then
        match result.cells.head? with
        | some cell => .ok (.scalar (to_python_type cell.v cell.t))
        | Option.none => .error "IndexError"
      else
        let data0 := List.replicate result.h
          (List.replicate result.w (Option.none : Option PyValue))
        let data := result.cells.foldl
          (fun g c => gridSet g (c.y - result.y) (c.x - result.x)
            (some (to_python_type_df c.v c.t))) data0
        if first_row_header || result.has_headers then
          .ok (.frame (data.drop 1) (some ((data.headD []).map pyStrOpt)))
        else .ok (.frame data Option.none)

/-! ## Claim-level predicates -/

/-- "Returns a dense `w × h` grid": a frame with `h` rows of `w`
entries each, or (for the series representation) `w*h` entries. -/
def denseGridShape (w h : Nat) : GetCellsRes → Prop
  | .frame rows _ => rows.length = h ∧ ∀ row ∈ rows, row.length = w
  | .series vals => vals.length = w * h

/-- Maximum row length of a 2-D output. -/
def maxRowLen (rows : List (List PyValue)) : Nat :=
  (rows.map List.length).foldl max 0

/-- A ragged 2-D output as a `PyValue`. -/
def listOfLists (rows : List (List PyValue)) : PyValue :=
  .list (rows.map .list)

/-- The shape claim C8 makes of the shaper's result on a 2-D output:
a 2-D typed grid, one row per input row, every row as long as the
longest input row. -/
def rectangularOn (rows : List (List PyValue)) (out : Except String ProcessedOutput) : Prop :=
  ∃ po grid, out = .ok po ∧ po.typed_array_output = some (.twoD grid) ∧
    grid.length = rows.length ∧ ∀ r ∈ grid, r.length = maxRowLen rows

/-- All seven `relativedelta` fields integral (the calendar durations
user code builds with int arguments). -/
def integralRel (rd : RelDelta) : Bool :=
  rd.years.den == 1 && rd.months.den == 1 && rd.days.den == 1 && rd.hours.den == 1 &&
    rd.minutes.den == 1 && rd.seconds.den == 1 && rd.microseconds.den == 1

/-- The round-trippable native-value domain (claim C1, as amended): the
empty string, time-of-day values and `timedelta`s are excluded, floats
carry their repr contract, durations are integral `relativedelta`s. -/
def okC1 : PyValue → Prop
  | .none => True
  | .str s => s ≠ ""
  | .int _ => True
  | .float f => validPyFloat f = true
  | .bool _ => True
  | .date d => validDate d = true
  | .datetime dt => validDateTime dt = true
  | .reldelta rd => integralRel rd = true
  | _ => False

/-- Canonical wire pairs (claim C9, as amended): payload in the exact
form `to_quadratic_type` emits for the tag. -/
def canonWirePair (p : String) (t : Nat) : Prop :=
  (t = CellValueType.Blank.value ∧ p = "") ∨
    (t = CellValueType.Text.value ∧ p ≠ "") ∨
    (t = CellValueType.Number.value ∧ ∃ n : Int, p = intStr n) ∨
    (t = CellValueType.Logical.value ∧ (p = "True" ∨ p = "False")) ∨
    (t = CellValueType.Date.value ∧ ∃ d, validDate d = true ∧ p = dateIso d) ∨
    (t = CellValueType.DateTime.value ∧ ∃ dt, validDateTime dt = true ∧ p = datetimeIso dt)

/-- Value of a little-endian digit list (proof helper). -/
def revVal : List Char → Nat
  | [] => 0
  | c :: cs => digitVal c + 10 * revVal cs

/-- Look up a dense-frame cell (rows are `Option PyValue`, `none`
being the `NaN`/`None` fill). -/
def frameCell (rows : List (List (Option PyValue))) (r c : Nat) : Option PyValue :=
  ((rows.getD r []).getD c Option.none)

/-- The full text of a reserved-name call with argument text `ts` and
trailing text `post` (proof helper for the rewriter theorems). -/
def qcellsCode (ts : ArgToks) (post : List Char) : List Char :=
  "q.cells(".data ++ renderArgToks ts ++ ')' :: post

/-! # Theorems

## Decimal-string round-trip lemmas -/

theorem isDigitChar_digitCh (d : Nat) : isDigitChar (digitCh d) = true := by
  have h : d % 10 < 10 := Nat.mod_lt _ (by norm_num)
  unfold digitCh
  set k := d % 10 with hk
  interval_cases k <;> decide

theorem digitVal_digitCh (d : Nat) : digitVal (digitCh d) = d % 10 := by
  have h : d % 10 < 10 := Nat.mod_lt _ (by norm_num)
  unfold digitCh digitVal
  set k := d % 10 with hk
  interval_cases k <;> decide

theorem revVal_natRevDigitsF : ∀ fuel n, n < fuel → revVal (natRevDigitsF fuel n) = n := by
  intro fuel
  induction fuel with
  | zero => intro n h; omega
  | succ f ih =>
    intro n h
    match n with
    | 0 => simp [natRevDigitsF, revVal]
    | m + 1 =>
      have hd : (m + 1) / 10 < f := by
        have h1 : (m + 1) / 10 < m + 1 := Nat.div_lt_self (by omega) (by norm_num)
        omega
      simp only [natRevDigitsF, revVal, digitVal_digitCh, ih _ hd]
      omega

theorem natRevDigitsF_all_digit : ∀ fuel n, (natRevDigitsF fuel n).all isDigitChar = true := by
  intro fuel
  induction fuel with
  | zero => intro n; simp [natRevDigitsF]
  | succ f ih =>
    intro n
    match n with
    | 0 => simp [natRevDigitsF]
    | m + 1 => simp [natRevDigitsF, isDigitChar_digitCh, ih]

theorem parseNatChars_reverse : ∀ l : List Char, parseNatChars l.reverse = revVal l := by
  intro l
  induction l with
  | nil => rfl
  | cons c cs ih =>
    simp only [List.reverse_cons, parseNatChars, List.foldl_append, List.foldl_cons,
      List.foldl_nil, revVal]
    simp only [parseNatChars] at ih
    rw [ih]; omega

theorem natStr_data_all_digit (n : Nat) : (natStr n).data.all isDigitChar = true := by
  unfold natStr
  split
  · decide
  · simpa using natRevDigitsF_all_digit (n + 1) n

theorem parseNatChars_natStr (n : Nat) : parseNatChars (natStr n).data = n := by
  unfold natStr
  split
  · next h => subst h; decide
  · next h =>
    show parseNatChars (natRevDigitsF (n + 1) n).reverse = n
    rw [parseNatChars_reverse, revVal_natRevDigitsF (n + 1) n (Nat.lt_succ_self n)]

theorem natStr_ne_nil (n : Nat) : (natStr n).data ≠ [] := by
  unfold natStr
  split
  · decide
  · next h =>
    match hm : n, h with
    | m + 1, _ =>
      simp [natRevDigitsF]

theorem pyIntParseL_digits (l : List Char) (hne : l ≠ []) (hall : l.all isDigitChar = true) :
    pyIntParseL l = some (parseNatChars l : Int) := by
  match l, hne with
  | c :: rest, _ =>
    have h1 : isDigitChar c = true := by
      simp only [List.all_cons, Bool.and_eq_true] at hall
      exact hall.1
    have hc1 : c ≠ '-' := fun e => by subst e; exact absurd h1 (by decide)
    have hc2 : c ≠ '+' := fun e => by subst e; exact absurd h1 (by decide)
    simp only [pyIntParseL]
    rw [if_neg hc1, if_neg hc2, if_pos hall]

theorem pyIntParse_natStr (m : Nat) : pyIntParse (natStr m) = some (m : Int) := by
  rw [pyIntParse, pyIntParseL_digits _ (natStr_ne_nil m) (natStr_data_all_digit m),
    parseNatChars_natStr]

theorem pyIntParse_intStr (n : Int) : pyIntParse (intStr n) = some n := by
  unfold intStr
  split
  · next hneg =>
    have hne := natStr_ne_nil n.natAbs
    have hall := natStr_data_all_digit n.natAbs
    rw [pyIntParse, String.data_append]
    show pyIntParseL ('-' :: (natStr n.natAbs).data) = some n
    simp only [pyIntParseL, if_true]
    rw [if_pos (by simp [hne, hall]), parseNatChars_natStr]
    congr 1
    omega
  · next hpos =>
    rw [pyIntParse_natStr]
    congr 1
    omega

theorem span_of_all {p : Char → Bool} {l : List Char} (h : l.all p = true) :
    l.span p = (l, []) := by
  rw [List.span_eq_take_drop, List.takeWhile_eq_self_iff.mpr, List.dropWhile_eq_nil_iff.mpr]
  · exact fun x hx => (List.all_eq_true.mp h) x hx
  · exact fun x hx => (List.all_eq_true.mp h) x hx

theorem floatBodyAccept_digits {l : List Char} (hne : l ≠ []) (hall : l.all isDigitChar = true) :
    floatBodyAccept l = true := by
  unfold floatBodyAccept
  rw [span_of_all hall]
  simp [hne]

theorem floatBodyValue_digits {l : List Char} (hall : l.all isDigitChar = true) :
    floatBodyValue l = (parseNatChars l : ℚ) := by
  unfold floatBodyValue
  rw [span_of_all hall]

theorem pyFloatParseQL_natStr (m : Nat) :
    pyFloatParseQL (natStr m).data = some (m : ℚ) := by
  have hne := natStr_ne_nil m
  have hall := natStr_data_all_digit m
  have hacc : pyFloatAcceptL (natStr m).data = true := by
    rcases hd : (natStr m).data with _ | ⟨c, rest⟩
    · exact absurd hd hne
    · rw [hd] at hall
      have h1 : isDigitChar c = true := by
        simp only [List.all_cons, Bool.and_eq_true] at hall
        exact hall.1
      have hc1 : c ≠ '-' := fun e => by subst e; exact absurd h1 (by decide)
      have hc2 : c ≠ '+' := fun e => by subst e; exact absurd h1 (by decide)
      simp only [pyFloatAcceptL, if_neg hc1, if_neg hc2]
      exact floatBodyAccept_digits (by simp) hall
  unfold pyFloatParseQL
  rw [if_pos hacc]
  rcases hd : (natStr m).data with _ | ⟨c, rest⟩
  · exact absurd hd hne
  · rw [hd] at hall
    have h1 : isDigitChar c = true := by
      simp only [List.all_cons, Bool.and_eq_true] at hall
      exact hall.1
    have hc1 : c ≠ '-' := fun e => by subst e; exact absurd h1 (by decide)
    have hc2 : c ≠ '+' := fun e => by subst e; exact absurd h1 (by decide)
    simp only [if_neg hc1, if_neg hc2]
    rw [floatBodyValue_digits hall, ← hd, parseNatChars_natStr]

theorem pyFloatParseQ_intStr (n : Int) : pyFloatParseQ (intStr n) = some (n : ℚ) := by
  unfold intStr
  split
  · next hneg =>
    have hne := natStr_ne_nil n.natAbs
    have hall := natStr_data_all_digit n.natAbs
    rw [pyFloatParseQ, String.data_append]
    show pyFloatParseQL ('-' :: (natStr n.natAbs).data) = some (n : ℚ)
    have hacc : pyFloatAcceptL ('-' :: (natStr n.natAbs).data) = true := by
      simp only [pyFloatAcceptL, if_true]
      exact floatBodyAccept_digits hne hall
    unfold pyFloatParseQL
    rw [if_pos hacc]
    simp only [if_true]
    rw [floatBodyValue_digits hall]
    congr 1
    rw [parseNatChars_natStr]
    rw [Int.cast_natAbs, abs_of_nonpos (le_of_lt hneg)]
    push_cast
    ring
  · next hpos =>
    rw [pyFloatParseQ, pyFloatParseQL_natStr]
    congr 1
    rw [Int.cast_natAbs, abs_of_nonneg (not_lt.mp hpos)]

/-! ## ISO-format round-trip lemmas -/

theorem daysInMonth_le (y m : Nat) : daysInMonth y m ≤ 31 := by
  unfold daysInMonth
  split_ifs <;> norm_num

theorem read2_pad2 (n : Nat) (h : n < 100) :
    read2 (digitCh (n / 10)) (digitCh n) = some n := by
  unfold read2
  rw [if_pos (by simp [isDigitChar_digitCh])]
  rw [digitVal_digitCh, digitVal_digitCh]
  congr 1
  omega

theorem read4_pad4 (n : Nat) (h : n < 10000) :
    read4 (digitCh (n / 1000)) (digitCh (n / 100)) (digitCh (n / 10)) (digitCh n) = some n := by
  unfold read4
  rw [if_pos (by simp [isDigitChar_digitCh])]
  simp only [digitVal_digitCh]
  congr 1
  omega

theorem read6_pad6 (n : Nat) (h : n < 1000000) :
    read6 (digitCh (n / 100000)) (digitCh (n / 10000)) (digitCh (n / 1000))
      (digitCh (n / 100)) (digitCh (n / 10)) (digitCh n) = some n := by
  unfold read6 read4 read2
  rw [if_pos (by simp [isDigitChar_digitCh]), if_pos (by simp [isDigitChar_digitCh])]
  simp only [digitVal_digitCh]
  show some _ = some n
  congr 1
  omega

theorem parseDatePart_dateIso (d : PyDate) (h : validDate d = true) :
    parseDatePart (dateIso d).data = some d := by
  obtain ⟨y, m, dd⟩ := d
  have hb := h
  simp only [validDate, Bool.and_eq_true, decide_eq_true_eq] at hb
  have hdm := daysInMonth_le y m
  show parseDatePart
    [digitCh (y / 1000), digitCh (y / 100), digitCh (y / 10), digitCh y, '-',
     digitCh (m / 10), digitCh m, '-', digitCh (dd / 10), digitCh dd] = some ⟨y, m, dd⟩
  simp only [parseDatePart]
  rw [read4_pad4 y (by omega), read2_pad2 m (by omega), read2_pad2 dd (by omega)]
  show (if validDate ⟨y, m, dd⟩ = true then some (⟨y, m, dd⟩ : PyDate) else Option.none) = some ⟨y, m, dd⟩
  rw [if_pos h]

theorem parseTimePart_timeIso (t : PyTime) (h : validTime t = true) :
    parseTimePart (timeIsoChars t) = some t := by
  obtain ⟨hh, mm, ss, us⟩ := t
  have hb := h
  simp only [validTime, Bool.and_eq_true, decide_eq_true_eq] at hb
  by_cases hus : us = 0
  · subst hus
    show parseTimePart
      [digitCh (hh / 10), digitCh hh, ':', digitCh (mm / 10), digitCh mm, ':',
       digitCh (ss / 10), digitCh ss] = some ⟨hh, mm, ss, 0⟩
    simp only [parseTimePart]
    rw [read2_pad2 hh (by omega), read2_pad2 mm (by omega), read2_pad2 ss (by omega)]
    show (if validTime ⟨hh, mm, ss, 0⟩ = true then some (⟨hh, mm, ss, 0⟩ : PyTime) else Option.none)
      = some ⟨hh, mm, ss, 0⟩
    rw [if_pos h]
  · have hlist : timeIsoChars ⟨hh, mm, ss, us⟩ =
      [digitCh (hh / 10), digitCh hh, ':', digitCh (mm / 10), digitCh mm, ':',
       digitCh (ss / 10), digitCh ss, '.', digitCh (us / 100000), digitCh (us / 10000),
       digitCh (us / 1000), digitCh (us / 100), digitCh (us / 10), digitCh us] := by
      simp [timeIsoChars, pad2, pad6, hus]
    rw [hlist]
    simp only [parseTimePart]
    rw [read2_pad2 hh (by omega), read2_pad2 mm (by omega), read2_pad2 ss (by omega),
      read6_pad6 us (by omega)]
    show (if validTime ⟨hh, mm, ss, us⟩ = true then some (⟨hh, mm, ss, us⟩ : PyTime) else Option.none)
      = some ⟨hh, mm, ss, us⟩
    rw [if_pos h]

theorem dateIso_length (d : PyDate) : (dateIso d).data.length = 10 := by
  obtain ⟨y, m, dd⟩ := d
  simp [dateIso, pad4, pad2]

theorem pyDatetimeFromIso_dateIso (d : PyDate) (h : validDate d = true) :
    pyDatetimeFromIso (dateIso d) = some ⟨d, ⟨0, 0, 0, 0⟩⟩ := by
  unfold pyDatetimeFromIso
  rw [if_pos (dateIso_length d), parseDatePart_dateIso d h]

theorem pyDatetimeFromIso_datetimeIso (dt : PyDateTime) (h : validDateTime dt = true) :
    pyDatetimeFromIso (datetimeIso dt) = some dt := by
  obtain ⟨d, t⟩ := dt
  have hb := h
  simp only [validDateTime, Bool.and_eq_true] at hb
  have hdata : (datetimeIso ⟨d, t⟩).data = (dateIso d).data ++ 'T' :: timeIsoChars t := rfl
  unfold pyDatetimeFromIso
  rw [hdata]
  have h10 := dateIso_length d
  rw [if_neg (by simp [List.length_append, h10])]
  rw [List.take_left' h10, List.drop_left' h10]
  rw [parseDatePart_dateIso d hb.1]
  show (match parseTimePart (timeIsoChars t) with
    | some t2 => some (⟨d, t2⟩ : PyDateTime)
    | Option.none => Option.none) = some ⟨d, t⟩
  rw [parseTimePart_timeIso t hb.2]

/-! ## `parse_duration` round-trip lemmas -/

theorem takeWhile_append_of_all {p : Char → Bool} : ∀ {l1 l2 : List Char},
    l1.all p = true → (l1 ++ l2).takeWhile p = l1 ++ l2.takeWhile p := by
  intro l1
  induction l1 with
  | nil => intro l2 _; simp
  | cons c cs ih =>
    intro l2 h
    simp only [List.all_cons, Bool.and_eq_true] at h
    simp only [List.cons_append, List.takeWhile_cons_of_pos h.1, ih h.2]

theorem dropWhile_append_of_all {p : Char → Bool} : ∀ {l1 l2 : List Char},
    l1.all p = true → (l1 ++ l2).dropWhile p = l2.dropWhile p := by
  intro l1
  induction l1 with
  | nil => intro l2 _; simp
  | cons c cs ih =>
    intro l2 h
    simp only [List.all_cons, Bool.and_eq_true] at h
    simp only [List.cons_append, List.dropWhile_cons_of_pos h.1, ih h.2]

theorem takeWhile_nil_of_head {p : Char → Bool} {l : List Char}
    (h : ∀ c, l.head? = some c → p c = false) : l.takeWhile p = [] := by
  cases l with
  | nil => rfl
  | cons c cs => exact List.takeWhile_cons_of_neg (by simp [h c rfl])

theorem dropWhile_self_of_head {p : Char → Bool} {l : List Char}
    (h : ∀ c, l.head? = some c → p c = false) : l.dropWhile p = l := by
  cases l with
  | nil => rfl
  | cons c cs => exact List.dropWhile_cons_of_neg (by simp [h c rfl])

theorem durUnit_not_num {c : Char} (h : durUnitChar c = true) : durNumChar c = false := by
  simp only [durUnitChar, Bool.or_eq_true, Bool.and_eq_true, decide_eq_true_eq] at h
  rcases h with ⟨h1, h2⟩ | h1
  · have hd : isDigitChar c = false := by
      cases hb : isDigitChar c with
      | false => rfl
      | true =>
        exfalso
        simp only [isDigitChar, Bool.and_eq_true, decide_eq_true_eq] at hb
        exact absurd (lt_of_le_of_lt hb.2 (by decide : ('9' : Char) < 'a')) (not_lt.mpr h1)
    have hm : c ≠ '-' := fun e => by subst e; exact absurd h1 (by decide)
    have hp : c ≠ '.' := fun e => by subst e; exact absurd h1 (by decide)
    simp [durNumChar, hd, hm, hp]
  · subst h1
    decide

theorem parseDurGo_stable : ∀ (n : Nat) (l : List Char) (acc : RelDelta) (fuel fuel' : Nat),
    l.length ≤ n → l.length < fuel → l.length < fuel' →
    parseDurGo fuel l acc = parseDurGo fuel' l acc := by
  intro n
  induction n with
  | zero =>
    intro l acc fuel fuel' hn h1 h2
    have : l = [] := List.length_eq_zero.mp (by omega)
    subst this
    obtain ⟨f, rfl⟩ : ∃ f, fuel = f + 1 := ⟨fuel - 1, by omega⟩
    obtain ⟨f', rfl⟩ : ∃ f', fuel' = f' + 1 := ⟨fuel' - 1, by omega⟩
    rfl
  | succ n ih =>
    intro l acc fuel fuel' hn h1 h2
    obtain ⟨f, rfl⟩ : ∃ f, fuel = f + 1 := ⟨fuel - 1, by omega⟩
    obtain ⟨f', rfl⟩ : ∃ f', fuel' = f' + 1 := ⟨fuel' - 1, by omega⟩
    cases l with
    | nil => rfl
    | cons c rest =>
      simp only [List.length_cons] at hn h1 h2
      simp only [parseDurGo]
      split
      · next hc =>
        have hdrop : ((c :: rest).dropWhile durNumChar).length ≤ rest.length := by
          rw [List.dropWhile_cons_of_pos hc]
          exact (List.dropWhile_sublist _).length_le
        split
        · exact ih rest acc f f' (by omega) (by omega) (by omega)
        · split
          · refine ih _ _ f f' ?_ ?_ ?_ <;>
              (have h2d :=
                (List.dropWhile_sublist (l := (c :: rest).dropWhile durNumChar)
                  (p := durUnitChar)).length_le
               omega)
          · rfl
      · exact ih rest acc f f' (by omega) (by omega) (by omega)

theorem parseDurGo_nil (acc : RelDelta) (fuel : Nat) (h : 0 < fuel) :
    parseDurGo fuel [] acc = .ok acc := by
  obtain ⟨f, rfl⟩ : ∃ f, fuel = f + 1 := ⟨fuel - 1, by omega⟩
  rfl

theorem parseDurGo_sep (c : Char) (rest : List Char) (acc : RelDelta) (fuel : Nat)
    (hc : durNumChar c = false) (hfuel : rest.length + 1 < fuel) :
    parseDurGo fuel (c :: rest) acc = parseDurGo fuel rest acc := by
  obtain ⟨f, rfl⟩ : ∃ f, fuel = f + 1 := ⟨fuel - 1, by omega⟩
  simp only [parseDurGo]
  rw [if_neg (by simp [hc])]
  exact parseDurGo_stable rest.length rest acc f (f + 1) le_rfl (by omega) (by omega)

theorem parseDurGo_group (num : List Char) (u : Char) (us rest : List Char) (q : ℚ)
    (acc : RelDelta) (fuel : Nat)
    (hnum_ne : num ≠ []) (hnum : num.all durNumChar = true)
    (hunits : (u :: us).all durUnitChar = true)
    (hrest : ∀ c, rest.head? = some c → durUnitChar c = false)
    (hq : pyFloatParseQL num = some q)
    (hfuel : (num ++ ((u :: us) ++ rest)).length < fuel) :
    parseDurGo fuel (num ++ ((u :: us) ++ rest)) acc =
      parseDurGo fuel rest (applyDurUnit acc (u :: us) q) := by
  obtain ⟨f, rfl⟩ : ∃ f, fuel = f + 1 := ⟨fuel - 1, by omega⟩
  obtain ⟨c, num', rfl⟩ : ∃ c num', num = c :: num' := by
    cases num with
    | nil => exact absurd rfl hnum_ne
    | cons c n => exact ⟨c, n, rfl⟩
  have hc : durNumChar c = true := by
    simp only [List.all_cons, Bool.and_eq_true] at hnum
    exact hnum.1
  have hu : durUnitChar u = true := by
    simp only [List.all_cons, Bool.and_eq_true] at hunits
    exact hunits.1
  have hunot : durNumChar u = false := durUnit_not_num hu
  have htake : (c :: (num' ++ (u :: (us ++ rest)))).takeWhile durNumChar = c :: num' := by
    have h1 : ((c :: num') ++ (u :: (us ++ rest))).takeWhile durNumChar =
        (c :: num') ++ ((u :: (us ++ rest)).takeWhile durNumChar) :=
      takeWhile_append_of_all hnum
    rw [List.takeWhile_cons_of_neg (by simp [hunot])] at h1
    simpa using h1
  have hdropN : (c :: (num' ++ (u :: (us ++ rest)))).dropWhile durNumChar =
      u :: (us ++ rest) := by
    have h1 : ((c :: num') ++ (u :: (us ++ rest))).dropWhile durNumChar =
        (u :: (us ++ rest)).dropWhile durNumChar :=
      dropWhile_append_of_all hnum
    rw [List.dropWhile_cons_of_neg (by simp [hunot])] at h1
    simpa using h1
  have htakeU : (u :: (us ++ rest)).takeWhile durUnitChar = u :: us := by
    have h1 : ((u :: us) ++ rest).takeWhile durUnitChar =
        (u :: us) ++ rest.takeWhile durUnitChar :=
      takeWhile_append_of_all hunits
    rw [takeWhile_nil_of_head hrest] at h1
    simpa using h1
  have hdropU : (u :: (us ++ rest)).dropWhile durUnitChar = rest := by
    have h1 : ((u :: us) ++ rest).dropWhile durUnitChar = rest.dropWhile durUnitChar :=
      dropWhile_append_of_all hunits
    rw [dropWhile_self_of_head hrest] at h1
    simpa using h1
  have hq2 : pyFloatParseQ ⟨c :: num'⟩ = some q := hq
  simp only [List.cons_append, List.append_assoc] at hfuel ⊢
  simp only [parseDurGo]
  rw [if_pos hc]
  simp only [htake, hdropN, htakeU, hdropU]
  rw [if_neg (by simp)]
  rw [hq2]
  simp only [List.length_cons, List.length_append] at hfuel
  exact parseDurGo_stable rest.length rest _ f (f + 1) le_rfl (by omega) (by omega)

theorem durNum_of_digit {c : Char} (h : isDigitChar c = true) : durNumChar c = true := by
  simp [durNumChar, h]

theorem intStr_data_all_durNum (n : Int) : (intStr n).data.all durNumChar = true := by
  have hd : ∀ m : Nat, (natStr m).data.all durNumChar = true := by
    intro m
    refine List.all_eq_true.mpr fun c hc => ?_
    exact durNum_of_digit (List.all_eq_true.mp (natStr_data_all_digit m) c hc)
  unfold intStr
  split
  · rw [String.data_append]
    show (('-' :: (natStr _).data).all durNumChar) = true
    simp only [List.all_cons, Bool.and_eq_true]
    exact ⟨by decide, hd _⟩
  · exact hd _

theorem intStr_data_ne_nil (n : Int) : (intStr n).data ≠ [] := by
  unfold intStr
  split
  · rw [String.data_append]
    show ('-' :: (natStr _).data) ≠ []
    simp
  · exact natStr_ne_nil _

theorem parseDurGo_group1 (num : List Char) (u : Char) (rest : List Char) (q : ℚ)
    (acc : RelDelta) (fuel : Nat)
    (hnum_ne : num ≠ []) (hnum : num.all durNumChar = true) (hu : durUnitChar u = true)
    (hrest : ∀ c, rest.head? = some c → durUnitChar c = false)
    (hq : pyFloatParseQL num = some q)
    (hfuel : (num ++ u :: rest).length < fuel) :
    parseDurGo fuel (num ++ u :: rest) acc = parseDurGo fuel rest (applyDurUnit acc [u] q) :=
  parseDurGo_group num u [] rest q acc fuel hnum_ne hnum (by simp [hu]) hrest hq
    (by simpa using hfuel)

theorem parseDurGo_group2 (num : List Char) (u1 u2 : Char) (rest : List Char) (q : ℚ)
    (acc : RelDelta) (fuel : Nat)
    (hnum_ne : num ≠ []) (hnum : num.all durNumChar = true)
    (hu1 : durUnitChar u1 = true) (hu2 : durUnitChar u2 = true)
    (hrest : ∀ c, rest.head? = some c → durUnitChar c = false)
    (hq : pyFloatParseQL num = some q)
    (hfuel : (num ++ u1 :: u2 :: rest).length < fuel) :
    parseDurGo fuel (num ++ u1 :: u2 :: rest) acc =
      parseDurGo fuel rest (applyDurUnit acc [u1, u2] q) :=
  parseDurGo_group num u1 [u2] rest q acc fuel hnum_ne hnum (by simp [hu1, hu2]) hrest hq
    (by simpa using hfuel)

theorem pyLower_digit {c : Char} (h : isDigitChar c = true) : pyLowerChar c = c := by
  simp only [isDigitChar, Bool.and_eq_true, decide_eq_true_eq] at h
  refine if_neg fun hc => ?_
  exact absurd (lt_of_le_of_lt h.2 (by decide : ('9' : Char) < 'A')) (not_lt.mpr hc.1)

theorem map_pyLower_id : ∀ {l : List Char}, (∀ c ∈ l, pyLowerChar c = c) →
    l.map pyLowerChar = l := by
  intro l h
  induction l with
  | nil => rfl
  | cons c cs ih =>
    simp only [List.map_cons, h c (by simp), List.cons.injEq, true_and]
    exact ih fun d hd => h d (by simp [hd])

theorem pyLower_intStr_mem {n : Int} {c : Char} (hc : c ∈ (intStr n).data) :
    pyLowerChar c = c := by
  have hd : ∀ m : Nat, ∀ c ∈ (natStr m).data, pyLowerChar c = c := fun m c hc =>
    pyLower_digit (List.all_eq_true.mp (natStr_data_all_digit m) c hc)
  revert hc
  unfold intStr
  split
  · rw [String.data_append]
    intro hc
    rcases List.mem_append.mp hc with hl | hr
    · have : c = '-' := by simpa using hl
      subst this
      decide
    · exact hd _ c hr
  · exact fun hc => hd _ c hc

theorem head_sep_not_unit : ∀ (l : List Char) (c : Char),
    (' ' :: l).head? = some c → durUnitChar c = false := by
  intro l c hc
  simp only [List.head?_cons, Option.some.injEq] at hc
  subst hc
  decide

theorem head_nil_not_unit : ∀ (c : Char), ([] : List Char).head? = some c →
    durUnitChar c = false := by
  intro c hc
  simp at hc

theorem applyDurUnit_y (acc : RelDelta) (q : ℚ) :
    applyDurUnit acc ['y'] q = { acc with years := acc.years + q } := rfl

theorem applyDurUnit_mo (acc : RelDelta) (q : ℚ) :
    applyDurUnit acc ['m', 'o'] q = { acc with months := acc.months + q } := rfl

theorem applyDurUnit_d (acc : RelDelta) (q : ℚ) :
    applyDurUnit acc ['d'] q = { acc with days := acc.days + q } := rfl

theorem applyDurUnit_h (acc : RelDelta) (q : ℚ) :
    applyDurUnit acc ['h'] q = { acc with hours := acc.hours + q } := rfl

theorem applyDurUnit_m (acc : RelDelta) (q : ℚ) :
    applyDurUnit acc ['m'] q = { acc with minutes := acc.minutes + q } := rfl

theorem applyDurUnit_s (acc : RelDelta) (q : ℚ) :
    applyDurUnit acc ['s'] q = { acc with seconds := acc.seconds + q } := rfl

theorem applyDurUnit_us (acc : RelDelta) (q : ℚ) :
    applyDurUnit acc ['µ', 's'] q = { acc with microseconds := acc.microseconds + q } := rfl

theorem parseDurGo_seven (iy imo idd ihh imi isv ius : List Char)
    (qy qmo qd qh qmi qs qus : ℚ) (F : Nat)
    (hy1 : iy ≠ []) (hy2 : iy.all durNumChar = true) (hy3 : pyFloatParseQL iy = some qy)
    (hmo1 : imo ≠ []) (hmo2 : imo.all durNumChar = true) (hmo3 : pyFloatParseQL imo = some qmo)
    (hd1 : idd ≠ []) (hd2 : idd.all durNumChar = true) (hd3 : pyFloatParseQL idd = some qd)
    (hh1 : ihh ≠ []) (hh2 : ihh.all durNumChar = true) (hh3 : pyFloatParseQL ihh = some qh)
    (hmi1 : imi ≠ []) (hmi2 : imi.all durNumChar = true) (hmi3 : pyFloatParseQL imi = some qmi)
    (hs1 : isv ≠ []) (hs2 : isv.all durNumChar = true) (hs3 : pyFloatParseQL isv = some qs)
    (hus1 : ius ≠ []) (hus2 : ius.all durNumChar = true) (hus3 : pyFloatParseQL ius = some qus)
    (hF : (iy ++ 'y' :: ' ' :: (imo ++ 'm' :: 'o' :: ' ' :: (idd ++ 'd' :: ' ' ::
      (ihh ++ 'h' :: ' ' :: (imi ++ 'm' :: ' ' :: (isv ++ 's' :: ' ' ::
      (ius ++ 'µ' :: 's' :: []))))))).length < F) :
    parseDurGo F (iy ++ 'y' :: ' ' :: (imo ++ 'm' :: 'o' :: ' ' :: (idd ++ 'd' :: ' ' ::
      (ihh ++ 'h' :: ' ' :: (imi ++ 'm' :: ' ' :: (isv ++ 's' :: ' ' ::
      (ius ++ 'µ' :: 's' :: []))))))) RelDelta.zero =
    .ok ⟨qy, qmo, qd, qh, qmi, qs, qus⟩ := by
  have hlen : ∀ (a : List Char) (b : List Char), (a ++ b).length = a.length + b.length :=
    fun a b => List.length_append a b
  set L7 : List Char := ius ++ 'µ' :: 's' :: [] with hL7
  set L6 : List Char := isv ++ 's' :: ' ' :: L7 with hL6
  set L5 : List Char := imi ++ 'm' :: ' ' :: L6 with hL5
  set L4 : List Char := ihh ++ 'h' :: ' ' :: L5 with hL4
  set L3 : List Char := idd ++ 'd' :: ' ' :: L4 with hL3
  set L2 : List Char := imo ++ 'm' :: 'o' :: ' ' :: L3 with hL2
  set L1 : List Char := iy ++ 'y' :: ' ' :: L2 with hL1
  have e7 : L7.length + 2 ≤ L1.length := by
    simp only [hL1, hL2, hL3, hL4, hL5, hL6, hL7, hlen, List.length_cons]
    omega
  have e6 : L6.length + 2 ≤ L1.length := by
    simp only [hL1, hL2, hL3, hL4, hL5, hL6, hlen, List.length_cons]
    omega
  have e5 : L5.length + 2 ≤ L1.length := by
    simp only [hL1, hL2, hL3, hL4, hL5, hlen, List.length_cons]
    omega
  have e4 : L4.length + 2 ≤ L1.length := by
    simp only [hL1, hL2, hL3, hL4, hlen, List.length_cons]
    omega
  have e3 : L3.length + 2 ≤ L1.length := by
    simp only [hL1, hL2, hL3, hlen, List.length_cons]
    omega
  have e2 : L2.length + 2 ≤ L1.length := by
    simp only [hL1, hL2, hlen, List.length_cons]
    omega
  have step7 : ∀ acc, parseDurGo F L7 acc = .ok (applyDurUnit acc ['µ', 's'] qus) := by
    intro acc
    rw [hL7]
    calc parseDurGo F (ius ++ 'µ' :: 's' :: []) acc
        = parseDurGo F [] (applyDurUnit acc ['µ', 's'] qus) :=
          parseDurGo_group2 ius 'µ' 's' [] qus acc F hus1 hus2 (by decide) (by decide)
            head_nil_not_unit hus3 (by rw [← hL7]; omega)
      _ = .ok (applyDurUnit acc ['µ', 's'] qus) := parseDurGo_nil _ _ (by omega)
  have step6 : ∀ acc, parseDurGo F L6 acc =
      .ok (applyDurUnit (applyDurUnit acc ['s'] qs) ['µ', 's'] qus) := by
    intro acc
    rw [hL6]
    calc parseDurGo F (isv ++ 's' :: (' ' :: L7)) acc
        = parseDurGo F (' ' :: L7) (applyDurUnit acc ['s'] qs) :=
          parseDurGo_group1 isv 's' (' ' :: L7) qs acc F hs1 hs2 (by decide)
            (head_sep_not_unit L7) hs3 (by rw [← hL6]; omega)
      _ = parseDurGo F L7 (applyDurUnit acc ['s'] qs) :=
          parseDurGo_sep ' ' L7 _ F (by decide) (by omega)
      _ = .ok (applyDurUnit (applyDurUnit acc ['s'] qs) ['µ', 's'] qus) := step7 _
  have step5 : ∀ acc, parseDurGo F L5 acc =
      .ok (applyDurUnit (applyDurUnit (applyDurUnit acc ['m'] qmi) ['s'] qs) ['µ', 's'] qus) := by
    intro acc
    rw [hL5]
    calc parseDurGo F (imi ++ 'm' :: (' ' :: L6)) acc
        = parseDurGo F (' ' :: L6) (applyDurUnit acc ['m'] qmi) :=
          parseDurGo_group1 imi 'm' (' ' :: L6) qmi acc F hmi1 hmi2 (by decide)
            (head_sep_not_unit L6) hmi3 (by rw [← hL5]; omega)
      _ = parseDurGo F L6 (applyDurUnit acc ['m'] qmi) :=
          parseDurGo_sep ' ' L6 _ F (by decide) (by omega)
      _ = _ := step6 _
  have step4 : ∀ acc, parseDurGo F L4 acc =
      .ok (applyDurUnit (applyDurUnit (applyDurUnit (applyDurUnit acc ['h'] qh) ['m'] qmi)
        ['s'] qs) ['µ', 's'] qus) := by
    intro acc
    rw [hL4]
    calc parseDurGo F (ihh ++ 'h' :: (' ' :: L5)) acc
        = parseDurGo F (' ' :: L5) (applyDurUnit acc ['h'] qh) :=
          parseDurGo_group1 ihh 'h' (' ' :: L5) qh acc F hh1 hh2 (by decide)
            (head_sep_not_unit L5) hh3 (by rw [← hL4]; omega)
      _ = parseDurGo F L5 (applyDurUnit acc ['h'] qh) :=
          parseDurGo_sep ' ' L5 _ F (by decide) (by omega)
      _ = _ := step5 _
  have step3 : ∀ acc, parseDurGo F L3 acc =
      .ok (applyDurUnit (applyDurUnit (applyDurUnit (applyDurUnit (applyDurUnit acc ['d'] qd)
        ['h'] qh) ['m'] qmi) ['s'] qs) ['µ', 's'] qus) := by
    intro acc
    rw [hL3]
    calc parseDurGo F (idd ++ 'd' :: (' ' :: L4)) acc
        = parseDurGo F (' ' :: L4) (applyDurUnit acc ['d'] qd) :=
          parseDurGo_group1 idd 'd' (' ' :: L4) qd acc F hd1 hd2 (by decide)
            (head_sep_not_unit L4) hd3 (by rw [← hL3]; omega)
      _ = parseDurGo F L4 (applyDurUnit acc ['d'] qd) :=
          parseDurGo_sep ' ' L4 _ F (by decide) (by omega)
      _ = _ := step4 _
  have step2 : ∀ acc, parseDurGo F L2 acc =
      .ok (applyDurUnit (applyDurUnit (applyDurUnit (applyDurUnit (applyDurUnit (applyDurUnit
        acc ['m', 'o'] qmo) ['d'] qd) ['h'] qh) ['m'] qmi) ['s'] qs) ['µ', 's'] qus) := by
    intro acc
    rw [hL2]
    calc parseDurGo F (imo ++ 'm' :: 'o' :: (' ' :: L3)) acc
        = parseDurGo F (' ' :: L3) (applyDurUnit acc ['m', 'o'] qmo) :=
          parseDurGo_group2 imo 'm' 'o' (' ' :: L3) qmo acc F hmo1 hmo2 (by decide) (by decide)
            (head_sep_not_unit L3) hmo3 (by rw [← hL2]; omega)
      _ = parseDurGo F L3 (applyDurUnit acc ['m', 'o'] qmo) :=
          parseDurGo_sep ' ' L3 _ F (by decide) (by omega)
      _ = _ := step3 _
  have step1 : parseDurGo F L1 RelDelta.zero =
      .ok (applyDurUnit (applyDurUnit (applyDurUnit (applyDurUnit (applyDurUnit (applyDurUnit
        (applyDurUnit RelDelta.zero ['y'] qy) ['m', 'o'] qmo) ['d'] qd) ['h'] qh) ['m'] qmi)
        ['s'] qs) ['µ', 's'] qus) := by
    rw [hL1]
    calc parseDurGo F (iy ++ 'y' :: (' ' :: L2)) RelDelta.zero
        = parseDurGo F (' ' :: L2) (applyDurUnit RelDelta.zero ['y'] qy) :=
          parseDurGo_group1 iy 'y' (' ' :: L2) qy RelDelta.zero F hy1 hy2 (by decide)
            (head_sep_not_unit L2) hy3 (by rw [← hL1]; omega)
      _ = parseDurGo F L2 (applyDurUnit RelDelta.zero ['y'] qy) :=
          parseDurGo_sep ' ' L2 _ F (by decide) (by omega)
      _ = _ := step2 _
  refine step1.trans ?_
  congr 1
  simp only [applyDurUnit_y, applyDurUnit_mo, applyDurUnit_d, applyDurUnit_h, applyDurUnit_m,
    applyDurUnit_s, applyDurUnit_us, RelDelta.zero]
  norm_num

theorem parse_duration_relDeltaFormat (rd : RelDelta) (h : integralRel rd = true) :
    parse_duration (relDeltaFormat rd) = .ok rd := by
  obtain ⟨y, mo, d, hh, mi, s, us⟩ := rd
  simp only [integralRel, Bool.and_eq_true, beq_iff_eq] at h
  obtain ⟨⟨⟨⟨⟨⟨h1, h2⟩, h3⟩, h4⟩, h5⟩, h6⟩, h7⟩ := h
  have e1 : qNumStr y = intStr y.num := by unfold qNumStr; rw [if_pos h1]
  have e2 : qNumStr mo = intStr mo.num := by unfold qNumStr; rw [if_pos h2]
  have e3 : qNumStr d = intStr d.num := by unfold qNumStr; rw [if_pos h3]
  have e4 : qNumStr hh = intStr hh.num := by unfold qNumStr; rw [if_pos h4]
  have e5 : qNumStr mi = intStr mi.num := by unfold qNumStr; rw [if_pos h5]
  have e6 : qNumStr s = intStr s.num := by unfold qNumStr; rw [if_pos h6]
  have e7 : qNumStr us = intStr us.num := by unfold qNumStr; rw [if_pos h7]
  have hdata : (relDeltaFormat ⟨y, mo, d, hh, mi, s, us⟩).data =
      (intStr y.num).data ++ 'y' :: ' ' :: ((intStr mo.num).data ++ 'm' :: 'o' :: ' ' ::
      ((intStr d.num).data ++ 'd' :: ' ' :: ((intStr hh.num).data ++ 'h' :: ' ' ::
      ((intStr mi.num).data ++ 'm' :: ' ' :: ((intStr s.num).data ++ 's' :: ' ' ::
      ((intStr us.num).data ++ 'µ' :: 's' :: [])))))) := by
    simp only [relDeltaFormat, e1, e2, e3, e4, e5, e6, e7, String.data_append,
      show ("y " : String).data = ['y', ' '] from rfl,
      show ("mo " : String).data = ['m', 'o', ' '] from rfl,
      show ("d " : String).data = ['d', ' '] from rfl,
      show ("h " : String).data = ['h', ' '] from rfl,
      show ("m " : String).data = ['m', ' '] from rfl,
      show ("s " : String).data = ['s', ' '] from rfl,
      show ("µs" : String).data = ['µ', 's'] from rfl,
      List.append_assoc, List.cons_append, List.nil_append]
  have hmem : ∀ c ∈ (relDeltaFormat ⟨y, mo, d, hh, mi, s, us⟩).data, pyLowerChar c = c := by
    rw [hdata]
    intro c hc
    simp only [List.mem_append, List.mem_cons, List.not_mem_nil, or_false] at hc
    rcases hc with hc|hc|hc|hc|hc|hc|hc|hc|hc|hc|hc|hc|hc|hc|hc|hc|hc|hc|hc|hc|hc|hc <;>
      first
        | exact pyLower_intStr_mem hc
        | (subst hc; decide)
  simp only [parse_duration]
  rw [map_pyLower_id hmem, hdata]
  have main := parseDurGo_seven (intStr y.num).data (intStr mo.num).data (intStr d.num).data
    (intStr hh.num).data (intStr mi.num).data (intStr s.num).data (intStr us.num).data
    ((y.num : ℚ)) ((mo.num : ℚ)) ((d.num : ℚ)) ((hh.num : ℚ)) ((mi.num : ℚ)) ((s.num : ℚ))
    ((us.num : ℚ))
    (((intStr y.num).data ++ 'y' :: ' ' :: ((intStr mo.num).data ++ 'm' :: 'o' :: ' ' ::
      ((intStr d.num).data ++ 'd' :: ' ' :: ((intStr hh.num).data ++ 'h' :: ' ' ::
      ((intStr mi.num).data ++ 'm' :: ' ' :: ((intStr s.num).data ++ 's' :: ' ' ::
      ((intStr us.num).data ++ 'µ' :: 's' :: []))))))).length + 1)
    (intStr_data_ne_nil _) (intStr_data_all_durNum _) (pyFloatParseQ_intStr _)
    (intStr_data_ne_nil _) (intStr_data_all_durNum _) (pyFloatParseQ_intStr _)
    (intStr_data_ne_nil _) (intStr_data_all_durNum _) (pyFloatParseQ_intStr _)
    (intStr_data_ne_nil _) (intStr_data_all_durNum _) (pyFloatParseQ_intStr _)
    (intStr_data_ne_nil _) (intStr_data_all_durNum _) (pyFloatParseQ_intStr _)
    (intStr_data_ne_nil _) (intStr_data_all_durNum _) (pyFloatParseQ_intStr _)
    (intStr_data_ne_nil _) (intStr_data_all_durNum _) (pyFloatParseQ_intStr _)
    (by omega)
  rw [main]
  have r1 : ((y.num : ℚ)) = y := (Rat.den_eq_one_iff y).mp h1
  have r2 : ((mo.num : ℚ)) = mo := (Rat.den_eq_one_iff mo).mp h2
  have r3 : ((d.num : ℚ)) = d := (Rat.den_eq_one_iff d).mp h3
  have r4 : ((hh.num : ℚ)) = hh := (Rat.den_eq_one_iff hh).mp h4
  have r5 : ((mi.num : ℚ)) = mi := (Rat.den_eq_one_iff mi).mp h5
  have r6 : ((s.num : ℚ)) = s := (Rat.den_eq_one_iff s).mp h6
  have r7 : ((us.num : ℚ)) = us := (Rat.den_eq_one_iff us).mp h7
  rw [r1, r2, r3, r4, r5, r6, r7]

/-! ## Claim C1: decode ∘ encode round trip -/

theorem to_python_type_eq_of_core {p : String} {t : Nat} {v : PyValue}
    (h : toPythonTypeCore p t = .ok v) : to_python_type p t = v := by
  unfold to_python_type
  rw [h]

theorem to_python_type_number (p : String) : to_python_type p 2 = number_type p := rfl

/-- Claim C1, as amended: for every representable native value except
the empty string, time-of-day values and `timedelta`s — i.e. `None`,
nonempty strings, ints, floats (under their repr contract), bools,
valid dates and datetimes, and integral `relativedelta` calendar
durations — decoding the encoding is the identity:
`to_python_type(to_quadratic_type(v)) == v`. -/
theorem c1_roundtrip_amended (v : PyValue) (h : okC1 v) :
    to_python_type (to_quadratic_type v).1 (to_quadratic_type v).2 = v := by
  cases v with
  | none => rfl
  | str s =>
    have hs : s ≠ "" := h
    have ht : to_quadratic_type (.str s) = (s, CellValueType.Text.value) := by
      simp only [to_quadratic_type, if_neg hs]
    rw [ht]
    rfl
  | int n =>
    have key : to_python_type (to_quadratic_type (.int n)).1 (to_quadratic_type (.int n)).2 =
        number_type (intStr n) := rfl
    rw [key]
    unfold number_type
    rw [pyIntParse_intStr n]
  | float f =>
    obtain ⟨rep⟩ := f
    have hv : validPyFloat ⟨rep⟩ = true := h
    simp only [validPyFloat, Bool.and_eq_true, Option.isNone_iff_eq_none] at hv
    have key : to_python_type (to_quadratic_type (.float ⟨rep⟩)).1
        (to_quadratic_type (.float ⟨rep⟩)).2 = number_type rep := rfl
    rw [key]
    unfold number_type
    rw [show pyIntParse rep = Option.none from hv.1, if_pos hv.2]
  | bool b =>
    cases b with
    | false => rfl
    | true => rfl
  | date d =>
    have ht : to_quadratic_type (.date d) = (dateIso d, 9) := rfl
    rw [ht]
    apply to_python_type_eq_of_core
    have hc : toPythonTypeCore (dateIso d) 9 =
        (match pyDatetimeFromIso (dateIso d) with
          | some dt => .ok (.date dt.date)
          | Option.none => .error "ValueError") := rfl
    rw [hc, pyDatetimeFromIso_dateIso d h]
  | datetime dt =>
    have ht : to_quadratic_type (.datetime dt) = (datetimeIso dt, 11) := rfl
    rw [ht]
    apply to_python_type_eq_of_core
    have hc : toPythonTypeCore (datetimeIso dt) 11 =
        (match pyDatetimeFromIso (datetimeIso dt) with
          | some d2 => .ok (.datetime d2)
          | Option.none => .error "ValueError") := rfl
    rw [hc, pyDatetimeFromIso_datetimeIso dt h]
  | reldelta rd =>
    have ht : to_quadratic_type (.reldelta rd) = (relDeltaFormat rd, 4) := rfl
    rw [ht]
    apply to_python_type_eq_of_core
    have hc : toPythonTypeCore (relDeltaFormat rd) 4 =
        (parse_duration (relDeltaFormat rd)).map .reldelta := rfl
    rw [hc, parse_duration_relDeltaFormat rd h]
    rfl
  | time t => exact absurd h not_false
  | timedelta td => exact absurd h not_false
  | list l => exact absurd h not_false

/-- Claim C1, counterexample: the empty string — a representable native
string value — encodes to Blank and decodes to `None`, so decoding the
encoding is not the identity on it. -/
theorem c1_counterexample :
    to_quadratic_type (.str "") = ("", CellValueType.Blank.value) ∧
    to_python_type "" CellValueType.Blank.value = PyValue.none ∧
    to_python_type (to_quadratic_type (.str "")).1 (to_quadratic_type (.str "")).2 ≠
      PyValue.str "" :=
  ⟨rfl, rfl, fun hx => PyValue.noConfusion hx⟩

/-- Witness for `c1_roundtrip_amended` at the integral calendar duration
`relativedelta(years=1, months=2, days=3, hours=4, minutes=5, seconds=6,
microseconds=7)`. -/
theorem c1_roundtrip_amended_witness :
    to_python_type (to_quadratic_type (.reldelta ⟨1, 2, 3, 4, 5, 6, 7⟩)).1
        (to_quadratic_type (.reldelta ⟨1, 2, 3, 4, 5, 6, 7⟩)).2 =
      .reldelta ⟨1, 2, 3, 4, 5, 6, 7⟩ :=
  c1_roundtrip_amended (.reldelta ⟨1, 2, 3, 4, 5, 6, 7⟩)
    (by show integralRel ⟨1, 2, 3, 4, 5, 6, 7⟩ = true; decide)

/-! ## Claim C9: encode ∘ decode on canonical wire pairs, and C7 totality -/

/-- Claim C9, as amended: for wire pairs in the canonical form the codec
itself emits — Blank `("", 0)`, Text with a nonempty payload, Number
with a canonically-written integer payload, Logical `"True"`/`"False"`,
Date/DateTime with canonical ISO payloads — re-encoding the decoding is
the identity; in particular `("42", Number)` decodes to the integer 42
and re-encodes to `("42", Number)`.  (Payloads that are valid but not
canonical, e.g. `("007", Number)`, are normalised, which refutes the
original claim; Time payloads fail to decode; Duration is excluded as
the claim itself anticipates.) -/
theorem c9_wire_roundtrip_amended (p : String) (t : Nat) (h : canonWirePair p t) :
    to_quadratic_type (to_python_type p t) = (p, t) := by
  rcases h with ⟨ht, hp⟩ | ⟨ht, hp⟩ | ⟨ht, n, hp⟩ | ⟨ht, hp⟩ | ⟨ht, d, hd, hp⟩ |
    ⟨ht, dt, hdt, hp⟩
  · subst ht hp
    rfl
  · subst ht
    have hdec : to_python_type p CellValueType.Text.value = .str p := rfl
    rw [hdec]
    simp only [to_quadratic_type, if_neg hp]
  · subst ht hp
    have hdec : to_python_type (intStr n) CellValueType.Number.value = number_type (intStr n) :=
      rfl
    rw [hdec]
    unfold number_type
    rw [pyIntParse_intStr n]
    rfl
  · subst ht
    rcases hp with hp | hp <;> subst hp <;> rfl
  · subst ht hp
    have hdec : to_python_type (dateIso d) CellValueType.Date.value = .date d := by
      apply to_python_type_eq_of_core
      have hc : toPythonTypeCore (dateIso d) CellValueType.Date.value =
          (match pyDatetimeFromIso (dateIso d) with
            | some dt2 => .ok (.date dt2.date)
            | Option.none => .error "ValueError") := rfl
      rw [hc, pyDatetimeFromIso_dateIso d hd]
    rw [hdec]
    rfl
  · subst ht hp
    have hdec : to_python_type (datetimeIso dt) CellValueType.DateTime.value = .datetime dt := by
      apply to_python_type_eq_of_core
      have hc : toPythonTypeCore (datetimeIso dt) CellValueType.DateTime.value =
          (match pyDatetimeFromIso (datetimeIso dt) with
            | some d2 => .ok (.datetime d2)
            | Option.none => .error "ValueError") := rfl
      rw [hc, pyDatetimeFromIso_datetimeIso dt hdt]
    rw [hdec]
    rfl

/-- Claim C9, counterexample: `("007", Number)` satisfies the Number
payload invariant (it parses as an integer), decodes to the integer 7,
and re-encodes to `("7", Number)` ≠ `("007", Number)`. -/
theorem c9_counterexample :
    to_python_type "007" CellValueType.Number.value = .int 7 ∧
    to_quadratic_type (to_python_type "007" CellValueType.Number.value) =
      ("7", CellValueType.Number.value) ∧
    to_quadratic_type (to_python_type "007" CellValueType.Number.value) ≠
      ("007", CellValueType.Number.value) :=
  ⟨rfl, rfl, by decide⟩

/-- Witness for `c9_wire_roundtrip_amended` at the claim's own scenario
`("42", Number)`. -/
theorem c9_wire_roundtrip_amended_witness :
    to_quadratic_type (to_python_type "42" CellValueType.Number.value) =
      ("42", CellValueType.Number.value) :=
  c9_wire_roundtrip_amended "42" CellValueType.Number.value
    (Or.inr (Or.inr (Or.inl ⟨rfl, 42, rfl⟩)))

/-- Claim C7: both codec directions are total.  `to_python_type` wraps
its decoders in a bare `try`/`except`: every run either propagates the
decoder's value or — on any decode failure — returns the original
payload string unchanged.  `to_quadratic_type` likewise returns a wire
pair for every modelled value (its `except` branches are the Text
fallback arms of the definition). -/
theorem c7_codec_total (p : String) (t : Nat) :
    ((∃ r, toPythonTypeCore p t = .ok r ∧ to_python_type p t = r) ∨
      (∃ e, toPythonTypeCore p t = .error e ∧ to_python_type p t = PyValue.str p)) ∧
    (∀ v : PyValue, ∃ w : String × Nat, to_quadratic_type v = w) := by
  constructor
  · cases hc : toPythonTypeCore p t with
    | ok r => exact Or.inl ⟨r, rfl, to_python_type_eq_of_core hc⟩
    | error e =>
      refine Or.inr ⟨e, rfl, ?_⟩
      unfold to_python_type
      rw [hc]
  · exact fun v => ⟨_, rfl⟩

/-! ## Claims C5 and C10: the figure gate -/

/-- Claim C5: within one session, after a first successful
`set_result` call that stored a figure, a second call raises
`FigureDisplayError` carrying the *second* call's source line (as
resolved through the user-frame filtering), and the first call recorded
the figure and its own line. -/
theorem c5_figure_conflict (fig1 : PyValue) (fig2 : Option PyValue)
    (frames1 frames2 : Option (List FrameInfo)) (st1 : FigureHolder) (line2 : LineVal)
    (h1 : set_result FigureHolder.init (some fig1) frames1 = (st1, Option.none))
    (h2 : resolveUserLine frames2 = .ok line2) :
    st1.result = some fig1 ∧
    (∃ line1, resolveUserLine frames1 = .ok line1 ∧ st1.result_set_from_line = some line1) ∧
    set_result st1 fig2 frames2 = (st1, some (.figureDisplayError line2)) := by
  unfold set_result at h1
  cases hr : resolveUserLine frames1 with
  | error e =>
    rw [hr] at h1
    exact absurd (congrArg Prod.snd h1) (by simp)
  | ok cur =>
    rw [hr] at h1
    simp only [FigureHolder.init, Option.isSome_none, Bool.false_eq_true, if_neg] at h1
    have hst : st1 = { result := some fig1, result_set_from_line := some cur } := by
      have := congrArg Prod.fst h1
      simpa using this.symm
    subst hst
    refine ⟨rfl, ⟨cur, rfl, rfl⟩, ?_⟩
    unfold set_result
    rw [h2]
    simp

/-- Witness for `c5_figure_conflict`: first call on line 3 stores the
figure; the second call on line 7 raises with line 7. -/
theorem c5_figure_conflict_witness :
    ({ result := some (.str "<html>"), result_set_from_line := some (.line 3) } :
        FigureHolder).result = some (.str "<html>") ∧
    (∃ line1, resolveUserLine (some [⟨3⟩]) = .ok line1 ∧
      ({ result := some (.str "<html>"), result_set_from_line := some (.line 3) } :
        FigureHolder).result_set_from_line = some line1) ∧
    set_result { result := some (.str "<html>"), result_set_from_line := some (.line 3) }
        (some (.str "<div>")) (some [⟨7⟩]) =
      ({ result := some (.str "<html>"), result_set_from_line := some (.line 3) },
        some (.figureDisplayError (.line 7))) :=
  c5_figure_conflict (.str "<html>") (some (.str "<div>")) (some [⟨3⟩]) (some [⟨7⟩]) _
    (.line 7) rfl rfl

/-- Claim C10: with a resolvable calling line, `set_result` raises
`FigureDisplayError` exactly when a result is already stored, and on
raising leaves the holder unchanged; `set_result(None)` succeeds but
stores `None`, so it does not arm the gate and a later call still
succeeds. -/
theorem c10_set_result_exactly_when (st : FigureHolder) (figure : Option PyValue)
    (frames : Option (List FrameInfo)) (line : LineVal)
    (h : resolveUserLine frames = .ok line) :
    (st.result.isSome = true →
      set_result st figure frames = (st, some (.figureDisplayError line))) ∧
    (st.result = Option.none →
      set_result st figure frames =
        ({ result := figure, result_set_from_line := some line }, Option.none)) ∧
    (∀ (st2 : FigureHolder) (figure2 : Option PyValue) (frames2 : Option (List FrameInfo))
        (line2 : LineVal),
      resolveUserLine frames2 = .ok line2 →
      st.result = Option.none → figure = Option.none →
      set_result st figure frames = (st2, Option.none) →
      st2.result = Option.none ∧
        set_result st2 figure2 frames2 =
          ({ result := figure2, result_set_from_line := some line2 }, Option.none)) := by
  refine ⟨?_, ?_, ?_⟩
  · intro hs
    unfold set_result
    rw [h]
    simp [hs]
  · intro hs
    unfold set_result
    rw [h]
    simp [hs]
  · intro st2 figure2 frames2 line2 h2 hs hf hrun
    unfold set_result at hrun
    rw [h] at hrun
    simp only [hs, Option.isSome_none, Bool.false_eq_true, if_neg] at hrun
    have hst2 : st2 = { result := figure, result_set_from_line := some line } := by
      have := congrArg Prod.fst hrun
      simpa using this.symm
    subst hst2 hf
    refine ⟨rfl, ?_⟩
    unfold set_result
    rw [h2]
    simp

/-- Witness for `c10_set_result_exactly_when`: an unarmed holder,
`set_result(None)` on line 2, then a later call on line 5 succeeds. -/
theorem c10_set_result_exactly_when_witness :
    ((FigureHolder.init.result.isSome = true →
      set_result FigureHolder.init Option.none (some [⟨2⟩]) =
        (FigureHolder.init, some (.figureDisplayError (.line 2)))) ∧
    (FigureHolder.init.result = Option.none →
      set_result FigureHolder.init Option.none (some [⟨2⟩]) =
        ({ result := Option.none, result_set_from_line := some (.line 2) }, Option.none)) ∧
    (∀ (st2 : FigureHolder) (figure2 : Option PyValue) (frames2 : Option (List FrameInfo))
        (line2 : LineVal),
      resolveUserLine frames2 = .ok line2 →
      FigureHolder.init.result = Option.none → (Option.none : Option PyValue) = Option.none →
      set_result FigureHolder.init Option.none (some [⟨2⟩]) = (st2, Option.none) →
      st2.result = Option.none ∧
        set_result st2 figure2 frames2 =
          ({ result := figure2, result_set_from_line := some line2 }, Option.none))) :=
  c10_set_result_exactly_when FigureHolder.init Option.none (some [⟨2⟩]) (.line 2) rfl

/-! ## Claim C6: figure/result conflict -/

/-- Claim C6: when the figure gate holds a result and the evaluation
also produced a non-null output value or array, the post-evaluation
check returns the fatal result-conflict error with `success: false`,
and its line number is `get_return_line(code)` — the 1-based line count
of the snippet with trailing whitespace stripped. -/
theorem c6_result_conflict (holder : FigureHolder) (fig : PyValue)
    (output_value : Option PyValue) (array_output : Option (List PyValue)) (code : String)
    (hres : holder.result = some fig)
    (hout : output_value.isSome = true ∨ array_output.isSome = true) :
    figureResultConflictCheck (some holder) output_value array_output code =
      .errorResult .resultConflict (get_return_line code) false ∧
    get_return_line code = countNewlines (pyRstrip code).data + 1 := by
  constructor
  · show (match holder.result with
      | some fig =>
        if output_value.isSome = true ∨ array_output.isSome = true then
          TailOutcome.errorResult RunErrKind.resultConflict (get_return_line code) false
        else TailOutcome.ok (some fig)
      | Option.none => TailOutcome.ok output_value) =
      TailOutcome.errorResult RunErrKind.resultConflict (get_return_line code) false
    rw [hres]
    show (if output_value.isSome = true ∨ array_output.isSome = true then
        TailOutcome.errorResult RunErrKind.resultConflict (get_return_line code) false
      else TailOutcome.ok (some fig)) =
      TailOutcome.errorResult RunErrKind.resultConflict (get_return_line code) false
    rw [if_pos hout]
  · rfl

/-- Witness for `c6_result_conflict`: a snippet that displayed a chart
and also ends in the bare expression `5`. -/
theorem c6_result_conflict_witness :
    figureResultConflictCheck
        (some { result := some (.str "<html>"), result_set_from_line := some (.line 1) })
        (some (.int 5)) Option.none "display(chart)\n5" =
      .errorResult .resultConflict (get_return_line "display(chart)\n5") false ∧
    get_return_line "display(chart)\n5" =
      countNewlines (pyRstrip "display(chart)\n5").data + 1 :=
  c6_result_conflict { result := some (.str "<html>"), result_set_from_line := some (.line 1) }
    (.str "<html>") (some (.int 5)) Option.none "display(chart)\n5" rfl (Or.inl rfl)

/-! ## Claim C8: output rectangularity -/

/-- Claim C8, counterexample: `[[], [1]]` is a ragged list of lists,
but because its *first* row is empty the shaper takes the 1-D branch
(`is_2d_array` requires `len(array_output[0]) > 0`) and emits a flat
list of two Text cells — not a padded rectangular grid. -/
theorem c8_counterexample :
    process_output_value (listOfLists [[], [.int 1]]) =
      .ok { typed_array_output := some (.oneD [("[]", QTag.int 1), ("[1]", QTag.int 1)]),
            array_output := some [.list [], .list [.int 1]],
            output_value := Option.none,
            output_type := "list",
            output_size := some (0, 2) } ∧
    ¬ rectangularOn [[], [.int 1]] (process_output_value (listOfLists [[], [.int 1]])) := by
  have hcomp : process_output_value (listOfLists [[], [.int 1]]) =
      .ok { typed_array_output := some (.oneD [("[]", QTag.int 1), ("[1]", QTag.int 1)]),
            array_output := some [.list [], .list [.int 1]],
            output_value := Option.none,
            output_type := "list",
            output_size := some (0, 2) } := rfl
  refine ⟨hcomp, ?_⟩
  rintro ⟨po, grid, hok, htyped, hlen, hrow⟩
  rw [hcomp] at hok
  injection hok with hpo
  rw [← hpo] at htyped
  simp at htyped

theorem le_foldl_max_init (l : List Nat) : ∀ a : Nat, a ≤ l.foldl max a := by
  induction l with
  | nil => intro a; exact le_rfl
  | cons y ys ih =>
    intro a
    calc a ≤ max a y := le_max_left a y
    _ ≤ ys.foldl max (max a y) := ih (max a y)

theorem le_foldl_max (l : List Nat) (x : Nat) (hx : x ∈ l) : ∀ a : Nat, x ≤ l.foldl max a := by
  induction l with
  | nil => exact absurd hx (List.not_mem_nil x)
  | cons y ys ih =>
    intro a
    rcases List.mem_cons.mp hx with h | h
    · subst h
      calc x ≤ max a x := le_max_right a x
      _ ≤ ys.foldl max (max a x) := le_foldl_max_init ys (max a x)
    · exact ih h (max a y)

theorem mapM_pyLen_loop (rows : List (List PyValue)) : ∀ acc : List Nat,
    List.mapM.loop pyLen (rows.map PyValue.list) acc =
      some (acc.reverse ++ rows.map List.length) := by
  induction rows with
  | nil => intro acc; simp [List.mapM.loop]
  | cons r rest ih =>
    intro acc
    simp only [List.map_cons, List.mapM.loop, pyLen, Option.bind_eq_bind, Option.some_bind,
      ih (r.length :: acc), List.reverse_cons, List.append_assoc, List.cons_append,
      List.nil_append]

theorem mapM_pyLen_lists (rows : List (List PyValue)) :
    (rows.map PyValue.list).mapM pyLen = some (rows.map List.length) := by
  have h := mapM_pyLen_loop rows []
  simpa [List.mapM] using h

theorem grid_entry {α : Type} (f : Nat → Nat → α) (d : α) (n m i j : Nat)
    (hi : i < n) (hj : j < m) :
    (((List.range n).map fun r => (List.range m).map fun c => f r c).getD i []).getD j d =
      f i j := by
  have h1 : i < ((List.range n).map fun r => (List.range m).map fun c => f r c).length := by
    simp [hi]
  rw [List.getD_eq_getElem _ _ h1, List.getElem_map, List.getElem_range]
  have h2 : j < ((List.range m).map fun c => f i c).length := by simp [hj]
  rw [List.getD_eq_getElem _ _ h2, List.getElem_map, List.getElem_range]

/-- Claim C8, as amended: for every 2-D output whose *first* row is a
nonempty list (and which is not all-empty, so the shaper keeps it as an
array), `process_output_value` produces a 2-D typed grid with one row
per input row in which every row has the length of the longest input
row: in-range cells are `to_quadratic_type` conversions and the
right-padding cells are the `("", "blank")` placeholder, so the result
is rectangular. -/
theorem c8_rectangular_amended (r0 : List PyValue) (rest : List (List PyValue))
    (hr0 : r0 ≠ [])
    (hnemp : isListEmpty (listOfLists (r0 :: rest)) = false) :
    ∃ grid,
      process_output_value (listOfLists (r0 :: rest)) =
        .ok { typed_array_output := some (.twoD grid),
              array_output := some ((r0 :: rest).map PyValue.list),
              output_value := Option.none,
              output_type := "list",
              output_size := some (r0.length, rest.length + 1) } ∧
      grid.length = rest.length + 1 ∧
      (∀ row ∈ grid, row.length = maxRowLen (r0 :: rest)) ∧
      (∀ i j, i < rest.length + 1 → j < ((r0 :: rest).getD i []).length →
        (grid.getD i []).getD j ("", QTag.str "") =
          toQuadCell (((r0 :: rest).getD i []).getD j .none)) ∧
      (∀ i j, i < rest.length + 1 → ((r0 :: rest).getD i []).length ≤ j →
        j < maxRowLen (r0 :: rest) →
        (grid.getD i []).getD j ("", QTag.str "") = ("", QTag.str "blank")) := by
  have hrows : ∀ i, i < rest.length + 1 →
      ((r0 :: rest).map List.length).getD i 0 = ((r0 :: rest).getD i []).length := by
    intro i hi
    rw [List.getD_eq_getElem _ _ (by simpa using hi), List.getD_eq_getElem _ _ (by simpa using hi),
      List.getElem_map]
  have hcell : ∀ i, i < rest.length + 1 →
      ((r0 :: rest).map PyValue.list).getD i PyValue.none =
        PyValue.list ((r0 :: rest).getD i []) := by
    intro i hi
    rw [List.getD_eq_getElem _ _ (by simpa using hi), List.getD_eq_getElem _ _ (by simpa using hi),
      List.getElem_map]
  refine ⟨(List.range (rest.length + 1)).map (fun r =>
      (List.range (maxRowLen (r0 :: rest))).map fun c =>
        if (((r0 :: rest).map List.length).getD r 0 ≤ c) then (("", QTag.str "blank") : QCell)
        else toQuadCell (pyIndexD (((r0 :: rest).map PyValue.list).getD r PyValue.none) c)),
    ?_, ?_, ?_, ?_, ?_⟩
  · have hnemp2 : isListEmpty (.list (.list r0 :: rest.map PyValue.list)) = false := hnemp
    have hr0len : (decide (0 < r0.length) : Bool) = true := by
      simp [List.length_pos, hr0]
    unfold process_output_value listOfLists
    simp only [List.map_cons, List.length_cons, List.head?_cons, hnemp2, Bool.not_false,
      Bool.and_true, Bool.and_self, decide_eq_true_eq, hr0len, if_true,
      gt_iff_lt, Nat.zero_lt_succ, mapM_pyLen_lists, List.length_map, maxRowLen]
    rw [show mapM pyLen (PyValue.list r0 :: List.map PyValue.list rest)
        = some (r0.length :: rest.map List.length) from by
      simpa using mapM_pyLen_lists (r0 :: rest)]
    rfl
  · simp only [List.length_map, List.length_range]
  · intro row hrow
    obtain ⟨r, _, rfl⟩ := List.mem_map.mp hrow
    simp [maxRowLen]
  · intro i j hi hj
    have hjlt : j < maxRowLen (r0 :: rest) := by
      have hmem : ((r0 :: rest).getD i []).length ∈ (r0 :: rest).map List.length := by
        rw [← hrows i hi, List.getD_eq_getElem _ _ (by simpa using hi)]
        exact List.getElem_mem _
      exact lt_of_lt_of_le hj (le_foldl_max _ _ hmem 0)
    rw [grid_entry _ _ _ _ i j hi hjlt]
    rw [hrows i hi, if_neg (by omega), hcell i hi]
    rfl
  · intro i j hi hj hjlt
    rw [grid_entry _ _ _ _ i j hi hjlt]
    rw [hrows i hi, if_pos hj]

/-- Claim C8 witness: the amended rectangularity theorem applied to the
concrete ragged input `[[1, 2], [3]]`. -/
theorem c8_rectangular_amended_witness :
    ∃ grid,
      process_output_value (listOfLists [[PyValue.int 1, PyValue.int 2], [PyValue.int 3]]) =
        .ok { typed_array_output := some (.twoD grid),
              array_output := some [PyValue.list [PyValue.int 1, PyValue.int 2],
                                    PyValue.list [PyValue.int 3]],
              output_value := Option.none,
              output_type := "list",
              output_size := some (2, 2) } ∧
      grid.length = 2 ∧
      (∀ row ∈ grid,
        row.length = maxRowLen [[PyValue.int 1, PyValue.int 2], [PyValue.int 3]]) ∧
      (∀ i j, i < 2 →
        j < (([[PyValue.int 1, PyValue.int 2], [PyValue.int 3]] :
              List (List PyValue)).getD i []).length →
        (grid.getD i []).getD j ("", QTag.str "") =
          toQuadCell ((([[PyValue.int 1, PyValue.int 2], [PyValue.int 3]] :
            List (List PyValue)).getD i []).getD j .none)) ∧
      (∀ i j, i < 2 →
        (([[PyValue.int 1, PyValue.int 2], [PyValue.int 3]] :
          List (List PyValue)).getD i []).length ≤ j →
        j < maxRowLen [[PyValue.int 1, PyValue.int 2], [PyValue.int 3]] →
        (grid.getD i []).getD j ("", QTag.str "") = ("", QTag.str "blank")) :=
  c8_rectangular_amended [PyValue.int 1, PyValue.int 2] [[PyValue.int 3]] (by simp) rfl

/-! ## Claim C3: rewriter idempotence -/

/-- Claim C3, counterexample: the forward transform is *not*
idempotent.  One application to `q.cells("A1")` wraps the call; a
second application matches `q.cells(` inside the already-wrapped text
(the preceding space is a word boundary) and wraps it again, so twice
differs from once. -/
theorem c3_counterexample :
    add_await_to_cell_calls "q.cells(\"A1\")" = "(await q.cells(\"A1\"))" ∧
    add_await_to_cell_calls (add_await_to_cell_calls "q.cells(\"A1\")") =
      "(await (await q.cells(\"A1\")))" ∧
    add_await_to_cell_calls (add_await_to_cell_calls "q.cells(\"A1\")") ≠
      add_await_to_cell_calls "q.cells(\"A1\")" :=
  ⟨rfl, rfl, by decide⟩

/-- Claim C3, as amended: on every snippet in which the reserved-name
regex finds no match, the forward transform is the identity, hence
idempotent there.  (On snippets that do contain a match it re-wraps on
every application — see the counterexample.) -/
theorem c3_idempotent_amended (code : String) (h : findMatches code.data = []) :
    add_await_to_cell_calls code = code ∧
    add_await_to_cell_calls (add_await_to_cell_calls code) =
      add_await_to_cell_calls code := by
  have hid : add_await_to_cell_calls code = code := by
    unfold add_await_to_cell_calls
    rw [h]
    show String.mk (code.data.drop 0) = code
    rw [List.drop_zero]
  exact ⟨hid, by rw [hid]; exact hid⟩

/-- Claim C3 witness: the amended theorem at the match-free snippet
`x = 1`. -/
theorem c3_idempotent_amended_witness :
    findMatches "x = 1".data = [] ∧
    (add_await_to_cell_calls "x = 1" = "x = 1" ∧
     add_await_to_cell_calls (add_await_to_cell_calls "x = 1") =
       add_await_to_cell_calls "x = 1") :=
  ⟨rfl, c3_idempotent_amended "x = 1" rfl⟩

/-! ## Claim C4: the close-paren scanner

Position lemmas for scanning `pre ++ mid ++ post` shapes. -/

theorem getD_append_len : ∀ (pre rest : List Char) (d : Char),
    (pre ++ rest).getD pre.length d = rest.getD 0 d := by
  intro pre
  induction pre with
  | nil => intro rest d; rfl
  | cons a as ih => intro rest d; simpa using ih rest d

theorem listSlice_at (pre rest : List Char) (k : Nat) :
    listSlice (pre ++ rest) pre.length (pre.length + k) = rest.take k := by
  unfold listSlice
  rw [List.take_append_eq_append_take, List.take_of_length_le (by omega),
    Nat.add_sub_cancel_left, List.drop_left]

theorem skipStrF_ge : ∀ (fuel : Nat) (code : List Char) (i : Nat) (q : Char),
    i ≤ skipStrF fuel code i q := by
  intro fuel
  induction fuel with
  | zero => intro code i q; exact le_refl i
  | succ f ih =>
    intro code i q
    simp only [skipStrF]
    split
    · split
      · exact le_trans (by omega) (ih code (i + 2) q)
      · split
        · omega
        · exact le_trans (by omega) (ih code (i + 1) q)
    · exact le_refl i

theorem find3F_ge : ∀ (fuel : Nat) (code : List Char) (q : Char) (s e : Nat),
    find3F fuel code q s = some e → s ≤ e := by
  intro fuel
  induction fuel with
  | zero => intro code q s e h; exact absurd h (by simp [find3F])
  | succ f ih =>
    intro code q s e h
    simp only [find3F] at h
    split at h
    · split at h
      · injection h with h; omega
      · exact le_trans (by omega) (ih code q (s + 1) e h)
    · exact absurd h (by simp)

/-- `scanF` does not depend on the fuel once the fuel exceeds the
remaining scan distance (every step advances the position). -/
theorem scanF_ext : ∀ (fuel₁ : Nat) (code : List Char) (i d fuel₂ : Nat),
    code.length < i + fuel₁ → 0 < fuel₁ → code.length < i + fuel₂ → 0 < fuel₂ →
    scanF fuel₁ code i d = scanF fuel₂ code i d := by
  intro fuel₁
  induction fuel₁ with
  | zero => intro code i d fuel₂ h1 h1' h2 h2'; omega
  | succ f ih =>
    intro code i d fuel₂ h1 h1' h2 h2'
    obtain ⟨f₂, rfl⟩ : ∃ g, fuel₂ = g + 1 := ⟨fuel₂ - 1, by omega⟩
    simp only [scanF]
    by_cases hd : d = 0
    · simp [hd]
    · simp only [if_neg hd]
      by_cases hi : i < code.length
      · simp only [if_pos hi]
        have hf : 0 < f := by omega
        have hf₂ : 0 < f₂ := by omega
        by_cases hq : code.getD i ' ' = '"' ∨ code.getD i ' ' = '\''
        · simp only [if_pos hq]
          by_cases ht : listSlice code i (i + 3) = [code.getD i ' ', code.getD i ' ', code.getD i ' ']
          · simp only [if_pos ht]
            cases hfind : find3F (code.length + 1) code (code.getD i ' ') (i + 3) with
            | none => exact ih code code.length d f₂ (by omega) hf (by omega) hf₂
            | some e =>
              have he := find3F_ge (code.length + 1) code (code.getD i ' ') (i + 3) e hfind
              exact ih code (e + 3) d f₂ (by omega) hf (by omega) hf₂
          · simp only [if_neg ht]
            have hge := skipStrF_ge (code.length + 2) code (i + 1) (code.getD i ' ')
            exact ih code (skipStrF (code.length + 2) code (i + 1) (code.getD i ' ')) d f₂
              (by omega) hf (by omega) hf₂
        · simp only [if_neg hq]
          by_cases hp : code.getD i ' ' = '('
          · simp only [if_pos hp]
            exact ih code (i + 1) (d + 1) f₂ (by omega) hf (by omega) hf₂
          · simp only [if_neg hp]
            by_cases hcp : code.getD i ' ' = ')'
            · simp only [if_pos hcp]
              exact ih code (i + 1) (d - 1) f₂ (by omega) hf (by omega) hf₂
            · simp only [if_neg hcp]
              exact ih code (i + 1) d f₂ (by omega) hf (by omega) hf₂
      · simp only [if_neg hi]

/-- Canonical-fuel restatement used after taking one scan step. -/
theorem scanF_fuel_succ (code : List Char) (i d : Nat) :
    scanF (code.length + 1) code i d = scanF (code.length + 2) code i d :=
  scanF_ext (code.length + 1) code i d (code.length + 2) (by omega) (by omega) (by omega)
    (by omega)

theorem scanF_step_done (fuel : Nat) (code : List Char) (i : Nat) :
    scanF (fuel + 1) code i 0 = some (i - 1) := by
  simp [scanF]

theorem scanF_step_ord (fuel : Nat) (code : List Char) (i d : Nat) (hd : ¬ d = 0)
    (hi : i < code.length)
    (hq : ¬(code.getD i ' ' = '"' ∨ code.getD i ' ' = '\''))
    (hp : ¬ code.getD i ' ' = '(') (hcp : ¬ code.getD i ' ' = ')') :
    scanF (fuel + 1) code i d = scanF fuel code (i + 1) d := by
  simp only [scanF, if_neg hd, if_pos hi, if_neg hq, if_neg hp, if_neg hcp]

theorem scanF_step_open (fuel : Nat) (code : List Char) (i d : Nat) (hd : ¬ d = 0)
    (hi : i < code.length)
    (hq : ¬(code.getD i ' ' = '"' ∨ code.getD i ' ' = '\''))
    (hp : code.getD i ' ' = '(') :
    scanF (fuel + 1) code i d = scanF fuel code (i + 1) (d + 1) := by
  simp only [scanF, if_neg hd, if_pos hi, if_neg hq, if_pos hp]

theorem scanF_step_close (fuel : Nat) (code : List Char) (i d : Nat) (hd : ¬ d = 0)
    (hi : i < code.length)
    (hq : ¬(code.getD i ' ' = '"' ∨ code.getD i ' ' = '\''))
    (hp : ¬ code.getD i ' ' = '(') (hcp : code.getD i ' ' = ')') :
    scanF (fuel + 1) code i d = scanF fuel code (i + 1) (d - 1) := by
  simp only [scanF, if_neg hd, if_pos hi, if_neg hq, if_neg hp, if_pos hcp]

theorem scanF_step_str (fuel : Nat) (code : List Char) (i d : Nat) (hd : ¬ d = 0)
    (hi : i < code.length)
    (hq : code.getD i ' ' = '"' ∨ code.getD i ' ' = '\'')
    (ht : ¬ listSlice code i (i + 3) = [code.getD i ' ', code.getD i ' ', code.getD i ' ']) :
    scanF (fuel + 1) code i d =
      scanF fuel code (skipStrF (code.length + 2) code (i + 1) (code.getD i ' ')) d := by
  simp only [scanF, if_neg hd, if_pos hi, if_pos hq, if_neg ht]

theorem scanF_step_triple (fuel : Nat) (code : List Char) (i d e : Nat) (hd : ¬ d = 0)
    (hi : i < code.length)
    (hq : code.getD i ' ' = '"' ∨ code.getD i ' ' = '\'')
    (ht : listSlice code i (i + 3) = [code.getD i ' ', code.getD i ' ', code.getD i ' '])
    (hfind : find3F (code.length + 1) code (code.getD i ' ') (i + 3) = some e) :
    scanF (fuel + 1) code i d = scanF fuel code (e + 3) d := by
  simp only [scanF, if_neg hd, if_pos hi, if_pos hq, if_pos ht, hfind]

/-- The single-quote skipping loop consumes exactly a wellformed
literal body and stops just past the closing quote. -/
theorem skipStrF_items (q : Char) (hq : ¬ q = '\\') :
    ∀ (items : List SItem), wfSItems q items = true →
    ∀ (pre post : List Char) (fuel : Nat), items.length + 1 ≤ fuel →
    skipStrF fuel (pre ++ renderSItems items ++ q :: post) pre.length q =
      pre.length + (renderSItems items).length + 1 := by
  intro items
  induction items with
  | nil =>
    intro _ pre post fuel hfuel
    obtain ⟨g, rfl⟩ : ∃ g, fuel = g + 1 := ⟨fuel - 1, by omega⟩
    have hi : pre.length < (pre ++ renderSItems [] ++ q :: post).length := by
      simp [renderSItems]
    have hc : (pre ++ renderSItems [] ++ q :: post).getD pre.length ' ' = q := by
      simpa [renderSItems] using getD_append_len pre (q :: post) ' '
    simp only [skipStrF, if_pos hi, hc, if_neg hq, if_pos rfl]
    simp [renderSItems]
  | cons it its ih =>
    intro hwf pre post fuel hfuel
    obtain ⟨g, rfl⟩ : ∃ g, fuel = g + 1 := ⟨fuel - 1, by omega⟩
    have hwf1 : wfSItem q it = true := by
      have := hwf
      simp [wfSItems] at this
      exact this.1
    have hwf2 : wfSItems q its = true := by
      have := hwf
      simp [wfSItems] at this
      exact this.2
    cases it with
    | raw c =>
      have hc1 : ¬ c = q := by
        simp [wfSItem] at hwf1
        exact hwf1.1
      have hc2 : ¬ c = '\\' := by
        simp [wfSItem] at hwf1
        exact hwf1.2
      have hshape : pre ++ renderSItems (SItem.raw c :: its) ++ q :: post =
          (pre ++ [c]) ++ renderSItems its ++ q :: post := by
        simp [renderSItems, renderSItem]
      have hi : pre.length < (pre ++ renderSItems (SItem.raw c :: its) ++ q :: post).length := by
        simp [renderSItems, renderSItem]
      have hc : (pre ++ renderSItems (SItem.raw c :: its) ++ q :: post).getD pre.length ' ' = c := by
        have h0 : pre ++ renderSItems (SItem.raw c :: its) ++ q :: post =
            pre ++ (c :: (renderSItems its ++ q :: post)) := by
          simp [renderSItems, renderSItem]
        rw [h0, getD_append_len]
        rfl
      simp only [skipStrF, if_pos hi, hc, if_neg hc2, if_neg hc1]
      rw [hshape]
      have := ih hwf2 (pre ++ [c]) post g (by simp at hfuel ⊢; omega)
      rw [show (pre ++ [c]).length = pre.length + 1 from by simp] at this
      rw [this]
      simp [renderSItems, renderSItem]
      omega
    | esc c =>
      have hshape : pre ++ renderSItems (SItem.esc c :: its) ++ q :: post =
          (pre ++ ['\\', c]) ++ renderSItems its ++ q :: post := by
        simp [renderSItems, renderSItem]
      have hi : pre.length < (pre ++ renderSItems (SItem.esc c :: its) ++ q :: post).length := by
        simp [renderSItems, renderSItem]
      have hc : (pre ++ renderSItems (SItem.esc c :: its) ++ q :: post).getD pre.length ' ' =
          '\\' := by
        have h0 : pre ++ renderSItems (SItem.esc c :: its) ++ q :: post =
            pre ++ ('\\' :: c :: (renderSItems its ++ q :: post)) := by
          simp [renderSItems, renderSItem]
        rw [h0, getD_append_len]
        rfl
      simp only [skipStrF, if_pos hi, hc, if_pos rfl]
      rw [hshape]
      have := ih hwf2 (pre ++ ['\\', c]) post g (by simp at hfuel ⊢; omega)
      rw [show (pre ++ ['\\', c]).length = pre.length + 2 from by simp] at this
      rw [this]
      simp [renderSItems, renderSItem]
      omega

theorem hasTriple_head (q : Char) (l : List Char) (h : hasTriple q l = false)
    (h3 : 3 ≤ l.length) :
    ¬ l.take 3 = [q, q, q] ∧ hasTriple q l.tail = false := by
  match l, h3 with
  | a :: b :: c :: rest, _ =>
    simp only [hasTriple, Bool.or_eq_false_iff] at h
    refine ⟨?_, ?_⟩
    · intro heq
      have htk : List.take 3 (a :: b :: c :: rest) = [a, b, c] := rfl
      rw [htk] at heq
      have h' : a = q ∧ b = q ∧ c = q := by simpa using heq
      obtain ⟨rfl, rfl, rfl⟩ := h'
      simp at h
    · show hasTriple q (b :: c :: rest) = false
      exact h.2

theorem take_le_two_qq (q : Char) (post : List Char) :
    ∀ n, n ≤ 2 → List.take n [q, q] = List.take n ([q, q, q] ++ post) := by
  intro n hn
  interval_cases n <;> rfl

theorem take_append_congr (x y₁ y₂ : List Char) (k : Nat)
    (h : List.take (k - x.length) y₁ = List.take (k - x.length) y₂) :
    List.take k (x ++ y₁) = List.take k (x ++ y₂) := by
  rw [List.take_append_eq_append_take, List.take_append_eq_append_take, h]

/-- `str.find(q*3, start)` over a wellformed triple-quoted body finds
the closing delimiter exactly at the end of the body. -/
theorem find3F_body (q : Char) :
    ∀ (body : List Char), hasTriple q (body ++ [q, q]) = false →
    ∀ (pre post : List Char) (fuel : Nat), body.length + 1 ≤ fuel →
    find3F fuel (pre ++ body ++ [q, q, q] ++ post) q pre.length =
      some (pre.length + body.length) := by
  intro body
  induction body with
  | nil =>
    intro _ pre post fuel hfuel
    obtain ⟨g, rfl⟩ : ∃ g, fuel = g + 1 := ⟨fuel - 1, by omega⟩
    have hlen : pre.length + 3 ≤ (pre ++ [] ++ [q, q, q] ++ post).length := by
      simp
    have hslice : listSlice (pre ++ [] ++ [q, q, q] ++ post) pre.length (pre.length + 3) =
        [q, q, q] := by
      have h0 : pre ++ [] ++ [q, q, q] ++ post = pre ++ ([q, q, q] ++ post) := by simp
      rw [h0, listSlice_at]
      rfl
    simp only [find3F, if_pos hlen, hslice, if_pos rfl]
    simp
  | cons b body' ih =>
    intro hnt pre post fuel hfuel
    obtain ⟨g, rfl⟩ : ∃ g, fuel = g + 1 := ⟨fuel - 1, by omega⟩
    have h3 : 3 ≤ ((b :: body') ++ [q, q]).length := by simp
    obtain ⟨htake, htail⟩ := hasTriple_head q ((b :: body') ++ [q, q]) hnt h3
    have hlen : pre.length + 3 ≤ (pre ++ (b :: body') ++ [q, q, q] ++ post).length := by
      simp; omega
    have hslice : listSlice (pre ++ (b :: body') ++ [q, q, q] ++ post) pre.length
        (pre.length + 3) = ((b :: body') ++ [q, q]).take 3 := by
      have h0 : pre ++ (b :: body') ++ [q, q, q] ++ post =
          pre ++ ((b :: body') ++ ([q, q, q] ++ post)) := by simp
      rw [h0, listSlice_at]
      exact take_append_congr (b :: body') ([q, q, q] ++ post) [q, q] 3
        ((take_le_two_qq q post (3 - (b :: body').length)
          (by simp only [List.length_cons]; omega)).symm)
    simp only [find3F, if_pos hlen, hslice]
    rw [if_neg htake]
    have hshape : pre ++ (b :: body') ++ [q, q, q] ++ post =
        (pre ++ [b]) ++ body' ++ [q, q, q] ++ post := by simp
    have htail' : hasTriple q (body' ++ [q, q]) = false := htail
    have := ih htail' (pre ++ [b]) post g (by simp at hfuel ⊢; omega)
    rw [show (pre ++ [b]).length = pre.length + 1 from by simp] at this
    rw [show pre.length + 1 = pre.length + 1 from rfl] at this
    rw [hshape, this]
    simp
    omega

theorem renderSItems_len : ∀ items : List SItem, items.length ≤ (renderSItems items).length := by
  intro items
  induction items with
  | nil => simp [renderSItems]
  | cons it its ih =>
    cases it <;> simp [renderSItems, renderSItem] <;> omega

theorem consume_raw (c : Char) (pre post : List Char) (d : Nat) (hd : ¬ d = 0)
    (h1 : ¬ c = '(') (h2 : ¬ c = ')') (h3 : ¬ (c = '"' ∨ c = '\'')) :
    scanF ((pre ++ c :: post).length + 2) (pre ++ c :: post) pre.length d =
      scanF ((pre ++ c :: post).length + 2) (pre ++ c :: post) (pre.length + 1) d := by
  have hi : pre.length < (pre ++ c :: post).length := by simp
  have hgd : (pre ++ c :: post).getD pre.length ' ' = c := by
    rw [getD_append_len]; rfl
  calc scanF ((pre ++ c :: post).length + 2) (pre ++ c :: post) pre.length d
      = scanF ((pre ++ c :: post).length + 1 + 1) (pre ++ c :: post) pre.length d := rfl
    _ = scanF ((pre ++ c :: post).length + 1) (pre ++ c :: post) (pre.length + 1) d :=
        scanF_step_ord _ _ _ _ hd hi (by rw [hgd]; exact h3) (by rw [hgd]; exact h1)
          (by rw [hgd]; exact h2)
    _ = scanF ((pre ++ c :: post).length + 2) (pre ++ c :: post) (pre.length + 1) d :=
        scanF_fuel_succ _ _ _

theorem consume_open (pre post : List Char) (d : Nat) (hd : ¬ d = 0) :
    scanF ((pre ++ '(' :: post).length + 2) (pre ++ '(' :: post) pre.length d =
      scanF ((pre ++ '(' :: post).length + 2) (pre ++ '(' :: post) (pre.length + 1) (d + 1) := by
  have hi : pre.length < (pre ++ '(' :: post).length := by simp
  have hgd : (pre ++ '(' :: post).getD pre.length ' ' = '(' := by
    rw [getD_append_len]; rfl
  calc scanF ((pre ++ '(' :: post).length + 2) (pre ++ '(' :: post) pre.length d
      = scanF ((pre ++ '(' :: post).length + 1 + 1) (pre ++ '(' :: post) pre.length d := rfl
    _ = scanF ((pre ++ '(' :: post).length + 1) (pre ++ '(' :: post) (pre.length + 1) (d + 1) :=
        scanF_step_open _ _ _ _ hd hi (by rw [hgd]; decide) (by rw [hgd])
    _ = scanF ((pre ++ '(' :: post).length + 2) (pre ++ '(' :: post) (pre.length + 1) (d + 1) :=
        scanF_fuel_succ _ _ _

theorem consume_close (pre post : List Char) (d : Nat) (hd : ¬ d = 0) :
    scanF ((pre ++ ')' :: post).length + 2) (pre ++ ')' :: post) pre.length d =
      scanF ((pre ++ ')' :: post).length + 2) (pre ++ ')' :: post) (pre.length + 1) (d - 1) := by
  have hi : pre.length < (pre ++ ')' :: post).length := by simp
  have hgd : (pre ++ ')' :: post).getD pre.length ' ' = ')' := by
    rw [getD_append_len]; rfl
  calc scanF ((pre ++ ')' :: post).length + 2) (pre ++ ')' :: post) pre.length d
      = scanF ((pre ++ ')' :: post).length + 1 + 1) (pre ++ ')' :: post) pre.length d := rfl
    _ = scanF ((pre ++ ')' :: post).length + 1) (pre ++ ')' :: post) (pre.length + 1) (d - 1) :=
        scanF_step_close _ _ _ _ hd hi (by rw [hgd]; decide) (by rw [hgd]; decide)
          (by rw [hgd])
    _ = scanF ((pre ++ ')' :: post).length + 2) (pre ++ ')' :: post) (pre.length + 1) (d - 1) :=
        scanF_fuel_succ _ _ _

theorem consume_strlit (q : Char) (items : List SItem) (pre post : List Char) (d : Nat)
    (hd : ¬ d = 0) (hqq : q = '"' ∨ q = '\'') (hne : ¬ items = [])
    (hwf : wfSItems q items = true) :
    scanF ((pre ++ q :: (renderSItems items ++ q :: post)).length + 2)
        (pre ++ q :: (renderSItems items ++ q :: post)) pre.length d =
      scanF ((pre ++ q :: (renderSItems items ++ q :: post)).length + 2)
        (pre ++ q :: (renderSItems items ++ q :: post))
        (pre.length + ((renderSItems items).length + 2)) d := by
  have hq' : ¬ q = '\\' := by rcases hqq with h | h <;> subst h <;> decide
  have hi : pre.length < (pre ++ q :: (renderSItems items ++ q :: post)).length := by simp
  have hgd : (pre ++ q :: (renderSItems items ++ q :: post)).getD pre.length ' ' = q := by
    rw [getD_append_len]; rfl
  have ht : ¬ listSlice (pre ++ q :: (renderSItems items ++ q :: post)) pre.length
      (pre.length + 3) = [q, q, q] := by
    rw [listSlice_at]
    cases items with
    | nil => exact absurd rfl hne
    | cons it0 its =>
      have hwf0 : wfSItem q it0 = true := by
        simp [wfSItems] at hwf
        exact hwf.1
      cases it0 with
      | raw c =>
        have hc : ¬ c = q := by
          simp [wfSItem] at hwf0
          exact hwf0.1
        have hren : renderSItems (SItem.raw c :: its) ++ q :: post =
            c :: (renderSItems its ++ q :: post) := by
          simp [renderSItems, renderSItem]
        rw [hren]
        have htk : (q :: c :: (renderSItems its ++ q :: post)).take 3 =
            q :: c :: (renderSItems its ++ q :: post).take 1 := rfl
        rw [htk]
        intro heq
        simp at heq
        exact hc heq.1
      | esc c =>
        have hren : renderSItems (SItem.esc c :: its) ++ q :: post =
            '\\' :: c :: (renderSItems its ++ q :: post) := by
          simp [renderSItems, renderSItem]
        rw [hren]
        have htk : (q :: '\\' :: c :: (renderSItems its ++ q :: post)).take 3 =
            [q, '\\', c] := rfl
        rw [htk]
        intro heq
        simp at heq
        exact hq' heq.1.symm
  have hskip : skipStrF ((pre ++ q :: (renderSItems items ++ q :: post)).length + 2)
      (pre ++ q :: (renderSItems items ++ q :: post)) (pre.length + 1) q =
        pre.length + (renderSItems items).length + 2 := by
    have hsh : (pre ++ [q]) ++ renderSItems items ++ q :: post =
        pre ++ q :: (renderSItems items ++ q :: post) := by simp
    have hbound : items.length + 1 ≤
        (pre ++ q :: (renderSItems items ++ q :: post)).length + 2 := by
      have := renderSItems_len items
      simp
      omega
    have h := skipStrF_items q hq' items hwf (pre ++ [q]) post
      ((pre ++ q :: (renderSItems items ++ q :: post)).length + 2) hbound
    rw [hsh] at h
    rw [show (pre ++ [q]).length = pre.length + 1 from by simp] at h
    rw [h]
    omega
  calc scanF ((pre ++ q :: (renderSItems items ++ q :: post)).length + 2)
        (pre ++ q :: (renderSItems items ++ q :: post)) pre.length d
      = scanF ((pre ++ q :: (renderSItems items ++ q :: post)).length + 1 + 1)
          (pre ++ q :: (renderSItems items ++ q :: post)) pre.length d := rfl
    _ = scanF ((pre ++ q :: (renderSItems items ++ q :: post)).length + 1)
          (pre ++ q :: (renderSItems items ++ q :: post))
          (skipStrF ((pre ++ q :: (renderSItems items ++ q :: post)).length + 2)
            (pre ++ q :: (renderSItems items ++ q :: post)) (pre.length + 1)
            ((pre ++ q :: (renderSItems items ++ q :: post)).getD pre.length ' ')) d :=
        scanF_step_str _ _ _ _ hd hi (by rw [hgd]; exact hqq) (by rw [hgd]; exact ht)
    _ = scanF ((pre ++ q :: (renderSItems items ++ q :: post)).length + 1)
          (pre ++ q :: (renderSItems items ++ q :: post))
          (pre.length + ((renderSItems items).length + 2)) d := by
        rw [hgd, hskip]
        rw [show pre.length + (renderSItems items).length + 2 =
          pre.length + ((renderSItems items).length + 2) from by omega]
    _ = scanF ((pre ++ q :: (renderSItems items ++ q :: post)).length + 2)
          (pre ++ q :: (renderSItems items ++ q :: post))
          (pre.length + ((renderSItems items).length + 2)) d :=
        scanF_fuel_succ _ _ _

theorem consume_triple (q : Char) (body : List Char) (pre post : List Char) (d : Nat)
    (hd : ¬ d = 0) (hqq : q = '"' ∨ q = '\'')
    (hnt : hasTriple q (body ++ [q, q]) = false) :
    scanF ((pre ++ q :: q :: q :: (body ++ q :: q :: q :: post)).length + 2)
        (pre ++ q :: q :: q :: (body ++ q :: q :: q :: post)) pre.length d =
      scanF ((pre ++ q :: q :: q :: (body ++ q :: q :: q :: post)).length + 2)
        (pre ++ q :: q :: q :: (body ++ q :: q :: q :: post))
        (pre.length + (body.length + 6)) d := by
  have hi : pre.length < (pre ++ q :: q :: q :: (body ++ q :: q :: q :: post)).length := by simp
  have hgd : (pre ++ q :: q :: q :: (body ++ q :: q :: q :: post)).getD pre.length ' ' = q := by
    rw [getD_append_len]; rfl
  have ht : listSlice (pre ++ q :: q :: q :: (body ++ q :: q :: q :: post)) pre.length
      (pre.length + 3) = [q, q, q] := by
    rw [listSlice_at]
    rfl
  have hfind : find3F ((pre ++ q :: q :: q :: (body ++ q :: q :: q :: post)).length + 1)
      (pre ++ q :: q :: q :: (body ++ q :: q :: q :: post)) q (pre.length + 3) =
        some (pre.length + 3 + body.length) := by
    have hsh : (pre ++ [q, q, q]) ++ body ++ [q, q, q] ++ post =
        pre ++ q :: q :: q :: (body ++ q :: q :: q :: post) := by simp
    have hbound : body.length + 1 ≤
        (pre ++ q :: q :: q :: (body ++ q :: q :: q :: post)).length + 1 := by
      simp
      omega
    have h := find3F_body q body hnt (pre ++ [q, q, q]) post
      ((pre ++ q :: q :: q :: (body ++ q :: q :: q :: post)).length + 1) hbound
    rw [hsh] at h
    rw [show (pre ++ [q, q, q]).length = pre.length + 3 from by simp] at h
    exact h
  calc scanF ((pre ++ q :: q :: q :: (body ++ q :: q :: q :: post)).length + 2)
        (pre ++ q :: q :: q :: (body ++ q :: q :: q :: post)) pre.length d
      = scanF ((pre ++ q :: q :: q :: (body ++ q :: q :: q :: post)).length + 1 + 1)
          (pre ++ q :: q :: q :: (body ++ q :: q :: q :: post)) pre.length d := rfl
    _ = scanF ((pre ++ q :: q :: q :: (body ++ q :: q :: q :: post)).length + 1)
          (pre ++ q :: q :: q :: (body ++ q :: q :: q :: post))
          (pre.length + 3 + body.length + 3) d :=
        scanF_step_triple _ _ _ _ _ hd hi (by rw [hgd]; exact hqq)
          (by rw [hgd]; exact ht) (by rw [hgd]; exact hfind)
    _ = scanF ((pre ++ q :: q :: q :: (body ++ q :: q :: q :: post)).length + 1)
          (pre ++ q :: q :: q :: (body ++ q :: q :: q :: post))
          (pre.length + (body.length + 6)) d := by
        rw [show pre.length + 3 + body.length + 3 = pre.length + (body.length + 6) from by omega]
    _ = scanF ((pre ++ q :: q :: q :: (body ++ q :: q :: q :: post)).length + 2)
          (pre ++ q :: q :: q :: (body ++ q :: q :: q :: post))
          (pre.length + (body.length + 6)) d :=
        scanF_fuel_succ _ _ _

mutual
/-- The depth-tracking scanner consumes the render of one wellformed
argument token without its depth ever reaching 0, ending just past the
token. -/
theorem scanF_consume_tok (t : ArgTok) (pre post : List Char) (d : Nat)
    (h : wfArgTok t = true) (hd : ¬ d = 0) :
    scanF ((pre ++ renderArgTok t ++ post).length + 2) (pre ++ renderArgTok t ++ post)
        pre.length d =
      scanF ((pre ++ renderArgTok t ++ post).length + 2) (pre ++ renderArgTok t ++ post)
        (pre.length + (renderArgTok t).length) d := by
  cases t with
  | raw c =>
    simp only [wfArgTok, Bool.and_eq_true, decide_eq_true_eq] at h
    obtain ⟨⟨⟨h1, h2⟩, h3⟩, h4⟩ := h
    rw [show pre ++ renderArgTok (ArgTok.raw c) ++ post = pre ++ c :: post from by
      simp [renderArgTok]]
    rw [show pre.length + (renderArgTok (ArgTok.raw c)).length = pre.length + 1 from by
      simp [renderArgTok]]
    exact consume_raw c pre post d hd h1 h2 (by rintro (h' | h') <;> [exact h3 h'; exact h4 h'])
  | strlit q items =>
    simp only [wfArgTok, Bool.and_eq_true, Bool.or_eq_true, decide_eq_true_eq,
      Bool.not_eq_true'] at h
    obtain ⟨⟨hqq, hne⟩, hwf⟩ := h
    have hne' : ¬ items = [] := by
      intro he
      rw [he] at hne
      simp at hne
    rw [show pre ++ renderArgTok (ArgTok.strlit q items) ++ post =
        pre ++ q :: (renderSItems items ++ q :: post) from by simp [renderArgTok]]
    rw [show pre.length + (renderArgTok (ArgTok.strlit q items)).length =
        pre.length + ((renderSItems items).length + 2) from by
      simp only [renderArgTok, List.length_cons, List.length_append, List.length_nil,
        List.length_singleton]]
    exact consume_strlit q items pre post d hd hqq hne' hwf
  | triple q body =>
    simp only [wfArgTok, Bool.and_eq_true, Bool.or_eq_true, decide_eq_true_eq,
      Bool.not_eq_true'] at h
    obtain ⟨hqq, hnt⟩ := h
    rw [show pre ++ renderArgTok (ArgTok.triple q body) ++ post =
        pre ++ q :: q :: q :: (body ++ q :: q :: q :: post) from by simp [renderArgTok]]
    rw [show pre.length + (renderArgTok (ArgTok.triple q body)).length =
        pre.length + (body.length + 6) from by
      simp only [renderArgTok, List.length_cons, List.length_append, List.length_nil,
        List.length_singleton]]
    exact consume_triple q body pre post d hd hqq hnt
  | paren inner =>
    have hinner : wfArgToks inner = true := by simpa [wfArgTok] using h
    rw [show pre ++ renderArgTok (ArgTok.paren inner) ++ post =
        pre ++ '(' :: (renderArgToks inner ++ ')' :: post) from by simp [renderArgTok]]
    rw [show pre.length + (renderArgTok (ArgTok.paren inner)).length =
        pre.length + 1 + (renderArgToks inner).length + 1 from by
      simp only [renderArgTok, List.length_cons, List.length_append, List.length_nil,
        List.length_singleton]
      omega]
    have step1 := consume_open pre (renderArgToks inner ++ ')' :: post) d hd
    have step2 := scanF_consume_toks inner (pre ++ ['(']) (')' :: post) (d + 1) hinner
      (by omega)
    rw [show pre ++ ['('] ++ renderArgToks inner ++ ')' :: post =
        pre ++ '(' :: (renderArgToks inner ++ ')' :: post) from by simp] at step2
    rw [show (pre ++ ['(']).length = pre.length + 1 from by simp] at step2
    have step3 := consume_close (pre ++ '(' :: renderArgToks inner) post (d + 1)
      (by omega)
    rw [show pre ++ '(' :: renderArgToks inner ++ ')' :: post =
        pre ++ '(' :: (renderArgToks inner ++ ')' :: post) from by simp] at step3
    rw [show (pre ++ '(' :: renderArgToks inner).length =
        pre.length + 1 + (renderArgToks inner).length from by
      simp only [List.length_append, List.length_cons]
      omega] at step3
    rw [Nat.add_sub_cancel] at step3
    exact (step1.trans step2).trans step3

/-- The scanner consumes the render of a wellformed argument-token
sequence, ending just past it. -/
theorem scanF_consume_toks (ts : ArgToks) (pre post : List Char) (d : Nat)
    (h : wfArgToks ts = true) (hd : ¬ d = 0) :
    scanF ((pre ++ renderArgToks ts ++ post).length + 2) (pre ++ renderArgToks ts ++ post)
        pre.length d =
      scanF ((pre ++ renderArgToks ts ++ post).length + 2) (pre ++ renderArgToks ts ++ post)
        (pre.length + (renderArgToks ts).length) d := by
  cases ts with
  | nil => simp [renderArgToks]
  | cons t ts' =>
    simp only [wfArgToks, Bool.and_eq_true] at h
    have step1 := scanF_consume_tok t pre (renderArgToks ts' ++ post) d h.1 hd
    rw [show pre ++ renderArgTok t ++ (renderArgToks ts' ++ post) =
        pre ++ (renderArgTok t ++ renderArgToks ts') ++ post from by simp] at step1
    have step2 := scanF_consume_toks ts' (pre ++ renderArgTok t) post d h.2 hd
    rw [show pre ++ renderArgTok t ++ renderArgToks ts' ++ post =
        pre ++ (renderArgTok t ++ renderArgToks ts') ++ post from by simp] at step2
    rw [show (pre ++ renderArgTok t).length = pre.length + (renderArgTok t).length from by
      simp] at step2
    rw [show pre ++ renderArgToks (ArgToks.cons t ts') ++ post =
        pre ++ (renderArgTok t ++ renderArgToks ts') ++ post from by simp [renderArgToks]]
    rw [show pre.length + (renderArgToks (ArgToks.cons t ts')).length =
        pre.length + (renderArgTok t).length + (renderArgToks ts').length from by
      simp only [renderArgToks, List.length_append]
      omega]
    exact step1.trans step2
end

/-- Claim C4, counterexample: the regex also matches the *inner*
`q.cells(` of `q.cells(q.cells(1))` (a `(` is not a word character, so
`\b` holds there), and the rewrite loop emits one wrapped copy per
match with overlapping slices, garbling the output instead of wrapping
exactly once at the outer level. -/
theorem c4_counterexample :
    add_await_to_cell_calls "q.cells(q.cells(1))" =
      "(await q.cells(q.cells(1)))(await q.cells(1)))" ∧
    add_await_to_cell_calls "q.cells(q.cells(1))" ≠ "(await q.cells(q.cells(1)))" :=
  ⟨rfl, by decide⟩

/-- Claim C4, as amended: over every wellformed argument text (raw
characters, nested parenthesised groups, single-quoted literals with
backslash escapes, triple-quoted literals — whose bodies may contain
parentheses), `_find_matching_close_paren` returns exactly the index
of the call's closing parenthesis: string-literal interiors are
skipped and depth is tracked over real parentheses only.  Provided the
argument text contains no further reserved-name match of its own (the
regex match list is exactly the outer call), the rewrite wraps the
call exactly once, at the outer level. -/
theorem c4_close_paren_amended (ts : ArgToks) (post : List Char)
    (h : wfArgToks ts = true) :
    findMatchingCloseParen (qcellsCode ts post) 7 =
      some (8 + (renderArgToks ts).length) ∧
    (findMatches (qcellsCode ts post) = [(0, 8)] →
      add_await_to_cell_calls ⟨qcellsCode ts post⟩ =
        ⟨"(await q.cells(".data ++ renderArgToks ts ++ "))".data ++ post⟩) := by
  have hclose : findMatchingCloseParen (qcellsCode ts post) 7 =
      some (8 + (renderArgToks ts).length) := by
    show scanF ((qcellsCode ts post).length + 2) (qcellsCode ts post) 8 1 =
      some (8 + (renderArgToks ts).length)
    rw [show qcellsCode ts post =
      ['q', '.', 'c', 'e', 'l', 'l', 's', '('] ++ renderArgToks ts ++ ')' :: post from rfl]
    have consume := scanF_consume_toks ts ['q', '.', 'c', 'e', 'l', 'l', 's', '(']
      (')' :: post) 1 h (by omega)
    rw [show (['q', '.', 'c', 'e', 'l', 'l', 's', '('] : List Char).length = 8 from rfl]
      at consume
    have hstep := consume_close (['q', '.', 'c', 'e', 'l', 'l', 's', '('] ++ renderArgToks ts)
      post 1 (by omega)
    rw [show ((['q', '.', 'c', 'e', 'l', 'l', 's', '('] : List Char) ++
        renderArgToks ts).length = 8 + (renderArgToks ts).length from by
      simp only [List.length_append, List.length_cons, List.length_nil]] at hstep
    rw [show (1 : Nat) - 1 = 0 from rfl] at hstep
    have hdone : scanF (((['q', '.', 'c', 'e', 'l', 'l', 's', '('] ++ renderArgToks ts ++
        ')' :: post).length + 1) + 1)
        (['q', '.', 'c', 'e', 'l', 'l', 's', '('] ++ renderArgToks ts ++ ')' :: post)
        (8 + (renderArgToks ts).length + 1) 0 =
        some (8 + (renderArgToks ts).length + 1 - 1) := scanF_step_done _ _ _
    rw [Nat.add_sub_cancel] at hdone
    calc scanF ((['q', '.', 'c', 'e', 'l', 'l', 's', '('] ++ renderArgToks ts ++
            ')' :: post).length + 2)
          (['q', '.', 'c', 'e', 'l', 'l', 's', '('] ++ renderArgToks ts ++ ')' :: post) 8 1
        = scanF ((['q', '.', 'c', 'e', 'l', 'l', 's', '('] ++ renderArgToks ts ++
            ')' :: post).length + 2)
          (['q', '.', 'c', 'e', 'l', 'l', 's', '('] ++ renderArgToks ts ++ ')' :: post)
          (8 + (renderArgToks ts).length) 1 := consume
      _ = scanF ((['q', '.', 'c', 'e', 'l', 'l', 's', '('] ++ renderArgToks ts ++
            ')' :: post).length + 2)
          (['q', '.', 'c', 'e', 'l', 'l', 's', '('] ++ renderArgToks ts ++ ')' :: post)
          (8 + (renderArgToks ts).length + 1) 0 := hstep
      _ = scanF (((['q', '.', 'c', 'e', 'l', 'l', 's', '('] ++ renderArgToks ts ++
            ')' :: post).length + 1) + 1)
          (['q', '.', 'c', 'e', 'l', 'l', 's', '('] ++ renderArgToks ts ++ ')' :: post)
          (8 + (renderArgToks ts).length + 1) 0 := rfl
      _ = some (8 + (renderArgToks ts).length) := hdone
  refine ⟨hclose, ?_⟩
  intro hm
  show String.mk (buildAwaitResult (findMatches (qcellsCode ts post)) (qcellsCode ts post) 0) =
    String.mk ("(await q.cells(".data ++ renderArgToks ts ++ "))".data ++ post)
  rw [hm]
  show String.mk (match findMatchingCloseParen (qcellsCode ts post) 7 with
    | Option.none => buildAwaitResult [] (qcellsCode ts post) 0
    | some closeIdx =>
      listSlice (qcellsCode ts post) 0 0 ++ "(await q.cells(".data ++
        listSlice (qcellsCode ts post) 8 closeIdx ++ "))".data ++
        buildAwaitResult [] (qcellsCode ts post) (closeIdx + 1)) =
    String.mk ("(await q.cells(".data ++ renderArgToks ts ++ "))".data ++ post)
  rw [hclose]
  have hslice : listSlice (qcellsCode ts post) 8 (8 + (renderArgToks ts).length) =
      renderArgToks ts := by
    rw [show qcellsCode ts post =
      ['q', '.', 'c', 'e', 'l', 'l', 's', '('] ++ (renderArgToks ts ++ ')' :: post) from by
        rw [show qcellsCode ts post =
          ['q', '.', 'c', 'e', 'l', 'l', 's', '('] ++ renderArgToks ts ++ ')' :: post from rfl]
        simp]
    rw [show (8 : Nat) = (['q', '.', 'c', 'e', 'l', 'l', 's', '('] : List Char).length from rfl]
    rw [listSlice_at, List.take_left]
  have hdrop : buildAwaitResult [] (qcellsCode ts post)
      (8 + (renderArgToks ts).length + 1) = post := by
    show (qcellsCode ts post).drop (8 + (renderArgToks ts).length + 1) = post
    rw [show qcellsCode ts post =
      (['q', '.', 'c', 'e', 'l', 'l', 's', '('] ++ renderArgToks ts ++ [')']) ++ post from by
        rw [show qcellsCode ts post =
          ['q', '.', 'c', 'e', 'l', 'l', 's', '('] ++ renderArgToks ts ++ ')' :: post from rfl]
        simp]
    rw [show 8 + (renderArgToks ts).length + 1 =
      ((['q', '.', 'c', 'e', 'l', 'l', 's', '('] : List Char) ++ renderArgToks ts ++
        [')']).length from by
      simp only [List.length_append, List.length_cons, List.length_nil]]
    exact List.drop_left _ _
  show String.mk (listSlice (qcellsCode ts post) 0 0 ++ "(await q.cells(".data ++
    listSlice (qcellsCode ts post) 8 (8 + (renderArgToks ts).length) ++ "))".data ++
    buildAwaitResult [] (qcellsCode ts post) (8 + (renderArgToks ts).length + 1)) =
    String.mk ("(await q.cells(".data ++ renderArgToks ts ++ "))".data ++ post)
  rw [hslice, hdrop]
  rw [show listSlice (qcellsCode ts post) 0 0 = [] from rfl]
  simp

/-- Claim C4 witness: the amended theorem at the concrete call
`q.cells(f("A(1"))` — a nested call whose string-literal argument
contains an unbalanced `'('`.  The scanner returns the true closing
parenthesis (index 16) and the rewrite wraps once at the outer
level. -/
theorem c4_close_paren_amended_witness :
    findMatchingCloseParen (qcellsCode (ArgToks.cons (ArgTok.raw 'f')
        (ArgToks.cons (ArgTok.paren (ArgToks.cons
          (ArgTok.strlit '"' [SItem.raw 'A', SItem.raw '(', SItem.raw '1'])
          ArgToks.nil)) ArgToks.nil)) []) 7 = some 16 ∧
    add_await_to_cell_calls ⟨qcellsCode (ArgToks.cons (ArgTok.raw 'f')
        (ArgToks.cons (ArgTok.paren (ArgToks.cons
          (ArgTok.strlit '"' [SItem.raw 'A', SItem.raw '(', SItem.raw '1'])
          ArgToks.nil)) ArgToks.nil)) []⟩ =
      ⟨"(await q.cells(".data ++ renderArgToks (ArgToks.cons (ArgTok.raw 'f')
        (ArgToks.cons (ArgTok.paren (ArgToks.cons
          (ArgTok.strlit '"' [SItem.raw 'A', SItem.raw '(', SItem.raw '1'])
          ArgToks.nil)) ArgToks.nil)) ++ "))".data ++ []⟩ := by
  have h := c4_close_paren_amended (ArgToks.cons (ArgTok.raw 'f')
    (ArgToks.cons (ArgTok.paren (ArgToks.cons
      (ArgTok.strlit '"' [SItem.raw 'A', SItem.raw '(', SItem.raw '1'])
      ArgToks.nil)) ArgToks.nil)) [] (by decide)
  exact ⟨by rw [h.1]; decide, h.2 (by decide)⟩

/-! ## Claim C2: dense range fetch and the access log -/

theorem gridSet_length (g : List (List (Option PyValue))) (r c : Int) (v : Option PyValue) :
    (gridSet g r c v).length = g.length := by
  unfold gridSet
  split
  · split
    · split <;> simp
    · rfl
  · rfl

theorem gridSet_row_length (g : List (List (Option PyValue))) (r c : Int) (v : Option PyValue)
    (i : Nat) : ((gridSet g r c v).getD i []).length = ((g.getD i []).length) := by
  unfold gridSet
  split
  · rename_i hr
    split
    · rename_i row hg
      split
      · rename_i hc
        rw [List.get?_eq_getElem?] at hg
        simp only [List.getD_eq_getElem?_getD, List.getElem?_set]
        by_cases hri : r.toNat = i
        · have hlt : r.toNat < g.length := by omega
          rw [if_pos hri, if_pos hlt, ← hri, hg]
          simp
        · rw [if_neg hri]
      · rfl
    · rfl
  · rfl

theorem frameCell_gridSet_hit (g : List (List (Option PyValue))) (i j : Nat)
    (v : Option PyValue) (hi : i < g.length) (hj : j < (g.getD i []).length) :
    frameCell (gridSet g (i : Int) (j : Int) v) i j = v := by
  have hrow : g.get? ((i : Int)).toNat = some (g.getD i []) := by
    rw [Int.toNat_natCast, List.get?_eq_getElem?, List.getElem?_eq_getElem hi,
      List.getD_eq_getElem _ _ hi]
  unfold gridSet
  rw [if_pos ⟨Int.natCast_nonneg i, by exact_mod_cast hi⟩, hrow]
  show frameCell (if 0 ≤ (j : Int) ∧ (j : Int) < ((g.getD i []).length : Int) then
      g.set ((i : Int)).toNat ((g.getD i []).set ((j : Int)).toNat v) else g) i j = v
  rw [if_pos ⟨Int.natCast_nonneg j, by exact_mod_cast hj⟩]
  unfold frameCell
  simp only [Int.toNat_natCast, List.getD_eq_getElem?_getD] at hj ⊢
  rw [List.getElem?_set_self hi, Option.getD_some, List.getElem?_set_self hj, Option.getD_some]

theorem frameCell_gridSet_miss (g : List (List (Option PyValue))) (r c : Int)
    (v : Option PyValue) (i j : Nat) (h : ¬(r = (i : Int) ∧ c = (j : Int))) :
    frameCell (gridSet g r c v) i j = frameCell g i j := by
  unfold gridSet frameCell
  split
  · rename_i hr
    split
    · rename_i row hg
      split
      · rename_i hc
        rw [List.get?_eq_getElem?] at hg
        simp only [List.getD_eq_getElem?_getD, List.getElem?_set]
        by_cases hri : r.toNat = i
        · have hrI : r = (i : Int) := by omega
          have hcJ : ¬ c = (j : Int) := fun hcj => h ⟨hrI, hcj⟩
          have hcn : c.toNat ≠ j := by omega
          have hlt : r.toNat < g.length := by omega
          rw [if_pos hri, if_pos hlt, ← hri, hg]
          simp only [Option.getD_some]
          rw [List.getElem?_set_ne hcn]
        · rw [if_neg hri]
      · rfl
    · rfl
  · rfl

theorem foldl_gridSet_length {α : Type} (fr fc : α → Int) (fv : α → Option PyValue) :
    ∀ (cs : List α) (g : List (List (Option PyValue))),
    (cs.foldl (fun g a => gridSet g (fr a) (fc a) (fv a)) g).length = g.length := by
  intro cs
  induction cs with
  | nil => intro g; rfl
  | cons a rest ih =>
    intro g
    simp only [List.foldl_cons]
    rw [ih, gridSet_length]

theorem foldl_gridSet_row_length {α : Type} (fr fc : α → Int) (fv : α → Option PyValue) :
    ∀ (cs : List α) (g : List (List (Option PyValue))) (i : Nat),
    ((cs.foldl (fun g a => gridSet g (fr a) (fc a) (fv a)) g).getD i []).length =
      ((g.getD i []).length) := by
  intro cs
  induction cs with
  | nil => intro g i; rfl
  | cons a rest ih =>
    intro g i
    simp only [List.foldl_cons]
    rw [ih, gridSet_row_length]

theorem foldl_gridSet_absent {α : Type} (fr fc : α → Int) (fv : α → Option PyValue) :
    ∀ (cs : List α) (g : List (List (Option PyValue))) (i j : Nat),
    (∀ a ∈ cs, ¬(fr a = (i : Int) ∧ fc a = (j : Int))) →
    frameCell (cs.foldl (fun g a => gridSet g (fr a) (fc a) (fv a)) g) i j =
      frameCell g i j := by
  intro cs
  induction cs with
  | nil => intro g i j _; rfl
  | cons a rest ih =>
    intro g i j hmiss
    simp only [List.foldl_cons]
    rw [ih _ i j fun a' ha' => hmiss a' (List.mem_cons_of_mem _ ha')]
    exact frameCell_gridSet_miss g (fr a) (fc a) (fv a) i j (hmiss a (List.mem_cons_self a rest))

theorem foldl_gridSet_present {α : Type} (fr fc : α → Int) (fv : α → Option PyValue) :
    ∀ (cs : List α) (g : List (List (Option PyValue))) (i j : Nat) (a₀ : α),
    a₀ ∈ cs → fr a₀ = (i : Int) → fc a₀ = (j : Int) →
    cs.Pairwise (fun a b => fr a ≠ fr b ∨ fc a ≠ fc b) →
    i < g.length → j < (g.getD i []).length →
    frameCell (cs.foldl (fun g a => gridSet g (fr a) (fc a) (fv a)) g) i j = fv a₀ := by
  intro cs
  induction cs with
  | nil => intro g i j a₀ hmem; exact absurd hmem (List.not_mem_nil a₀)
  | cons a rest ih =>
    intro g i j a₀ hmem hfr hfc hpw hi hj
    simp only [List.foldl_cons]
    by_cases hhit : fr a = (i : Int) ∧ fc a = (j : Int)
    · have ha₀ : a₀ = a := by
        rcases List.mem_cons.mp hmem with h' | h'
        · exact h'
        · exfalso
          rcases (List.pairwise_cons.mp hpw).1 a₀ h' with hne | hne
          · exact hne (hhit.1.trans hfr.symm)
          · exact hne (hhit.2.trans hfc.symm)
      subst ha₀
      have hmiss : ∀ a' ∈ rest, ¬(fr a' = (i : Int) ∧ fc a' = (j : Int)) := by
        intro a' ha' ⟨h1, h2⟩
        rcases (List.pairwise_cons.mp hpw).1 a' ha' with hne | hne
        · exact hne (hfr.trans h1.symm)
        · exact hne (hfc.trans h2.symm)
      rw [foldl_gridSet_absent fr fc fv rest _ i j hmiss]
      rw [hfr, hfc]
      exact frameCell_gridSet_hit g i j (fv a₀) hi hj
    · have ha₀ : a₀ ∈ rest := by
        rcases List.mem_cons.mp hmem with h' | h'
        · exact absurd (h' ▸ And.intro hfr hfc) hhit
        · exact h'
      have hi' : i < (gridSet g (fr a) (fc a) (fv a)).length := by
        rw [gridSet_length]; exact hi
      have hj' : j < ((gridSet g (fr a) (fc a) (fv a)).getD i []).length := by
        rw [gridSet_row_length]; exact hj
      exact ih (gridSet g (fr a) (fc a) (fv a)) i j a₀ ha₀ hfr hfc
        (List.pairwise_cons.mp hpw).2 hi' hj'

theorem mem_intRangeList (a b x : Int) : x ∈ intRangeList a b ↔ a ≤ x ∧ x ≤ b := by
  unfold intRangeList
  simp only [List.mem_map, List.mem_range]
  constructor
  · rintro ⟨k, hk, rfl⟩
    omega
  · intro ⟨h1, h2⟩
    exact ⟨(x - a).toNat, by omega, by omega⟩

theorem intRangeList_pairwise_lt (a b : Int) : (intRangeList a b).Pairwise (· < ·) := by
  unfold intRangeList
  rw [List.pairwise_map]
  apply List.Pairwise.imp ?_ (List.pairwise_lt_range _)
  intro k1 k2 h
  omega

/-- The access-log loop emits the rectangle in strictly increasing
x-major lexicographic order. -/
theorem scanOrderLog_pairwise (p0 p1 : Int × Int) (sheet : Option String) :
    (scanOrderLog p0 p1 sheet).Pairwise
      (fun u v => u.1 < v.1 ∨ (u.1 = v.1 ∧ u.2.1 < v.2.1)) := by
  unfold scanOrderLog
  rw [List.pairwise_flatMap]
  constructor
  · intro x hx
    rw [List.pairwise_map]
    apply List.Pairwise.imp ?_ (intRangeList_pairwise_lt p0.2 p1.2)
    intro y1 y2 h
    exact Or.inr ⟨rfl, h⟩
  · apply List.Pairwise.imp ?_ (intRangeList_pairwise_lt p0.1 p1.1)
    intro x1 x2 hlt u hu v hv
    obtain ⟨y1, -, rfl⟩ := List.mem_map.mp hu
    obtain ⟨y2, -, rfl⟩ := List.mem_map.mp hv
    exact Or.inl hlt

/-- Hence no coordinate is logged twice. -/
theorem scanOrderLog_nodup (p0 p1 : Int × Int) (sheet : Option String) :
    (scanOrderLog p0 p1 sheet).Nodup := by
  apply List.Pairwise.imp ?_ (scanOrderLog_pairwise p0 p1 sheet)
  intro u v h heq
  subst heq
  rcases h with h | h
  · omega
  · omega

theorem mem_scanOrderLog (p0 p1 : Int × Int) (sheet : Option String) (x y : Int) :
    (x, y, sheet) ∈ scanOrderLog p0 p1 sheet ↔
      (p0.1 ≤ x ∧ x ≤ p1.1 ∧ p0.2 ≤ y ∧ y ≤ p1.2) := by
  unfold scanOrderLog
  simp only [List.mem_flatMap, List.mem_map]
  constructor
  · rintro ⟨x', hx', y', hy', heq⟩
    obtain ⟨rfl, rfl, -⟩ : x' = x ∧ y' = y ∧ sheet = sheet := by
      injection heq with h1 h2
      injection h2 with h2 h3
      exact ⟨h1, h2, rfl⟩
    have h1 := (mem_intRangeList _ _ _).mp hx'
    have h2 := (mem_intRangeList _ _ _).mp hy'
    exact ⟨h1.1, h1.2, h2.1, h2.2⟩
  · intro ⟨h1, h2, h3, h4⟩
    exact ⟨x, (mem_intRangeList _ _ _).mpr ⟨h1, h2⟩, y,
      (mem_intRangeList _ _ _).mpr ⟨h3, h4⟩, rfl⟩

theorem frameCell_replicate_none (h w i j : Nat) :
    frameCell (List.replicate h (List.replicate w Option.none)) i j =
      (Option.none : Option PyValue) := by
  unfold frameCell
  by_cases hi : i < h
  · have h1 : (List.replicate h (List.replicate w (Option.none : Option PyValue))).getD i [] =
        List.replicate w Option.none := by
      rw [List.getD_eq_getElem _ _ (by simpa using hi)]
      exact List.getElem_replicate _ _
    rw [h1]
    by_cases hj : j < w
    · rw [List.getD_eq_getElem _ _ (by simpa using hj)]
      exact List.getElem_replicate _ _
    · exact List.getD_eq_default _ _ (by simpa using hj)
  · have h1 : (List.replicate h (List.replicate w (Option.none : Option PyValue))).getD i [] =
        [] := List.getD_eq_default _ _ (by simpa using hi)
    rw [h1]
    rfl

/-- Both branches of `getCells` log the same list: the full rectangle
in scan order. -/
theorem getCells_log (p0 p1 : Int × Int) (sheet : Option String) (frh : Bool)
    (cells : List JsCell) :
    (getCells p0 p1 sheet frh cells).1 = scanOrderLog p0 p1 sheet := by
  unfold getCells
  by_cases hcond : p1.1 - p0.1 + 1 = 1 ∨ p1.2 - p0.2 + 1 = 1
  · simp only [if_pos hcond]
  · simp only [if_neg hcond]
    cases frh <;> rfl

/-- Claim C2, counterexample: for the height-2, width-1 range
`(0,0)-(0,1)` with an empty host response, `getCells` takes its
`pd.Series` branch and returns only the response cells — zero entries,
not a dense 1×2 grid with Blanks.  (The access-log half of the claim
does hold here: both coordinates are logged, in scan order.) -/
theorem c2_counterexample :
    getCells (0, 0) (0, 1) (some "Sheet1") false [] =
      (scanOrderLog (0, 0) (0, 1) (some "Sheet1"), .series []) ∧
    scanOrderLog (0, 0) (0, 1) (some "Sheet1") =
      [(0, 0, some "Sheet1"), (0, 1, some "Sheet1")] ∧
    ¬ denseGridShape 1 2 (getCells (0, 0) (0, 1) (some "Sheet1") false []).2 := by
  refine ⟨rfl, rfl, ?_⟩
  show ¬ denseGridShape 1 2 (GetCellsRes.series [])
  unfold denseGridShape
  simp

/-- Claim C2, as amended.  The access-log half holds unconditionally
and for every range: `getCells` appends exactly the coordinates of the
inclusive rectangle, each exactly once, in strictly increasing x-major
scan order.  The dense-grid half holds for ranges of width ≥ 2 *and*
height ≥ 2 (the spec's own 2×2 scenario): `getCells` builds a dense
`height × width` frame in which every response cell appears decoded at
its offset and every coordinate absent from the response is the
`NaN`/Blank fill; `_process_cells_response` does the same for its
`h × w` response grid.  For width-1 or height-1 ranges `getCells`
instead returns the sparse `pd.Series` of the counterexample. -/
theorem c2_fetch_amended (p0 p1 : Int × Int) (sheet : Option String) (cells : List JsCell)
    (vals : A1Values)
    (hw : 2 ≤ p1.1 - p0.1 + 1) (hh : 2 ≤ p1.2 - p0.2 + 1)
    (hin : ∀ c ∈ cells, p0.1 ≤ c.x ∧ c.x ≤ p1.1 ∧ p0.2 ≤ c.y ∧ c.y ≤ p1.2)
    (hdist : cells.Pairwise (fun a b => a.x ≠ b.x ∨ a.y ≠ b.y))
    (hw2 : 2 ≤ vals.w) (hh2 : 2 ≤ vals.h) (hhd : vals.has_headers = false)
    (hin2 : ∀ c ∈ vals.cells, vals.x ≤ c.x ∧ c.x < vals.x + vals.w ∧
      vals.y ≤ c.y ∧ c.y < vals.y + vals.h)
    (hdist2 : vals.cells.Pairwise (fun a b => a.x ≠ b.x ∨ a.y ≠ b.y)) :
    ((getCells p0 p1 sheet false cells).1 = scanOrderLog p0 p1 sheet ∧
     (∀ x y, (x, y, sheet) ∈ (getCells p0 p1 sheet false cells).1 ↔
       (p0.1 ≤ x ∧ x ≤ p1.1 ∧ p0.2 ≤ y ∧ y ≤ p1.2)) ∧
     (getCells p0 p1 sheet false cells).1.Nodup ∧
     (getCells p0 p1 sheet false cells).1.Pairwise
       (fun u v => u.1 < v.1 ∨ (u.1 = v.1 ∧ u.2.1 < v.2.1))) ∧
    (∃ rows,
      (getCells p0 p1 sheet false cells).2 = .frame rows Option.none ∧
      rows.length = (p1.2 - p0.2 + 1).toNat ∧
      (∀ row ∈ rows, row.length = (p1.1 - p0.1 + 1).toNat) ∧
      (∀ c ∈ cells, frameCell rows (c.y - p0.2).toNat (c.x - p0.1).toNat =
        some (to_python_type_name c.value c.type_name)) ∧
      (∀ i j, i < (p1.2 - p0.2 + 1).toNat → j < (p1.1 - p0.1 + 1).toNat →
        (∀ c ∈ cells, ¬((c.y - p0.2).toNat = i ∧ (c.x - p0.1).toNat = j)) →
        frameCell rows i j = Option.none)) ∧
    (∃ rows,
      process_cells_response ⟨Option.none, some vals⟩ false = .ok (.frame rows Option.none) ∧
      rows.length = vals.h ∧
      (∀ row ∈ rows, row.length = vals.w) ∧
      (∀ c ∈ vals.cells, frameCell rows (c.y - vals.y).toNat (c.x - vals.x).toNat =
        some (to_python_type_df c.v c.t)) ∧
      (∀ i j, i < vals.h → j < vals.w →
        (∀ c ∈ vals.cells, ¬((c.y - vals.y).toNat = i ∧ (c.x - vals.x).toNat = j)) →
        frameCell rows i j = Option.none)) := by
  have hcond : ¬(p1.1 - p0.1 + 1 = 1 ∨ p1.2 - p0.2 + 1 = 1) := by omega
  have hlog := getCells_log p0 p1 sheet false cells
  refine ⟨⟨hlog, ?_, ?_, ?_⟩, ?_, ?_⟩
  · intro x y
    rw [hlog]
    exact mem_scanOrderLog p0 p1 sheet x y
  · rw [hlog]
    exact scanOrderLog_nodup p0 p1 sheet
  · rw [hlog]
    exact scanOrderLog_pairwise p0 p1 sheet
  · -- getCells dense frame
    refine ⟨cells.foldl (fun g c => gridSet g (c.y - p0.2) (c.x - p0.1)
        (some (to_python_type_name c.value c.type_name)))
        (List.replicate (p1.2 - p0.2 + 1).toNat
          (List.replicate (p1.1 - p0.1 + 1).toNat Option.none)), ?_, ?_, ?_, ?_, ?_⟩
    · unfold getCells
      simp only [if_neg hcond]
      rfl
    · exact (foldl_gridSet_length _ _ _ cells _).trans (by simp)
    · intro row hrow
      obtain ⟨k, hk, hrow'⟩ := List.mem_iff_getElem.mp hrow
      have hlen0 := (foldl_gridSet_length (fun c : JsCell => c.y - p0.2)
        (fun c : JsCell => c.x - p0.1)
        (fun c : JsCell => some (to_python_type_name c.value c.type_name)) cells
        (List.replicate (p1.2 - p0.2 + 1).toNat
          (List.replicate (p1.1 - p0.1 + 1).toNat Option.none)))
      have hk' : k < (p1.2 - p0.2 + 1).toNat := by
        rw [hlen0] at hk
        simpa using hk
      have h1 := foldl_gridSet_row_length (fun c : JsCell => c.y - p0.2)
        (fun c : JsCell => c.x - p0.1)
        (fun c : JsCell => some (to_python_type_name c.value c.type_name)) cells
        (List.replicate (p1.2 - p0.2 + 1).toNat
          (List.replicate (p1.1 - p0.1 + 1).toNat Option.none)) k
      have h2 : (List.replicate (p1.2 - p0.2 + 1).toNat
          (List.replicate (p1.1 - p0.1 + 1).toNat
            (Option.none : Option PyValue))).getD k [] =
          List.replicate (p1.1 - p0.1 + 1).toNat Option.none := by
        rw [List.getD_eq_getElem _ _ (by simpa using hk')]
        exact List.getElem_replicate _ _
      rw [← hrow', ← List.getD_eq_getElem _ [] hk]
      rw [h1, h2, List.length_replicate]
    · intro c hc
      obtain ⟨hx1, hx2, hy1, hy2⟩ := hin c hc
      exact foldl_gridSet_present _ _ _ cells _ _ _ c hc (by omega) (by omega)
        (List.Pairwise.imp (fun hab => by rcases hab with h' | h'
                                          · exact Or.inr (fun he => h' (by omega))
                                          · exact Or.inl (fun he => h' (by omega))) hdist)
        (by simp; omega) (by rw [List.getD_eq_getElem _ _ (by simp; omega)]
                             rw [List.getElem_replicate]
                             simp
                             omega)
    · intro i j hi hj hnone
      refine (foldl_gridSet_absent _ _ _ cells _ i j ?_).trans
        (frameCell_replicate_none _ _ i j)
      intro c hc ⟨h1, h2⟩
      obtain ⟨hx1, hx2, hy1, hy2⟩ := hin c hc
      exact hnone c hc ⟨by omega, by omega⟩
  · -- process_cells_response dense frame
    have hcond2 : ¬(vals.w = 1 ∧ vals.h = 1) := by omega
    refine ⟨vals.cells.foldl (fun g c => gridSet g (c.y - vals.y) (c.x - vals.x)
        (some (to_python_type_df c.v c.t)))
        (List.replicate vals.h (List.replicate vals.w Option.none)), ?_, ?_, ?_, ?_, ?_⟩
    · show (if vals.w = 1 ∧ vals.h = 1 then _ else _) = _
      rw [if_neg hcond2]
      show (if (false || vals.has_headers) = true then _ else _) = _
      rw [hhd]
      rfl
    · exact (foldl_gridSet_length _ _ _ vals.cells _).trans (by simp)
    · intro row hrow
      obtain ⟨k, hk, hrow'⟩ := List.mem_iff_getElem.mp hrow
      have hlen0 := (foldl_gridSet_length (fun c : A1Cell => c.y - vals.y)
        (fun c : A1Cell => c.x - vals.x)
        (fun c : A1Cell => some (to_python_type_df c.v c.t)) vals.cells
        (List.replicate vals.h (List.replicate vals.w Option.none)))
      have hk' : k < vals.h := by
        rw [hlen0] at hk
        simpa using hk
      have h1 := foldl_gridSet_row_length (fun c : A1Cell => c.y - vals.y)
        (fun c : A1Cell => c.x - vals.x)
        (fun c : A1Cell => some (to_python_type_df c.v c.t)) vals.cells
        (List.replicate vals.h (List.replicate vals.w Option.none)) k
      have h2 : (List.replicate vals.h (List.replicate vals.w
          (Option.none : Option PyValue))).getD k [] =
          List.replicate vals.w Option.none := by
        rw [List.getD_eq_getElem _ _ (by simpa using hk')]
        exact List.getElem_replicate _ _
      rw [← hrow', ← List.getD_eq_getElem _ [] hk]
      rw [h1, h2, List.length_replicate]
    · intro c hc
      obtain ⟨hx1, hx2, hy1, hy2⟩ := hin2 c hc
      exact foldl_gridSet_present _ _ _ vals.cells _ _ _ c hc (by omega) (by omega)
        (List.Pairwise.imp (fun hab => by rcases hab with h' | h'
                                          · exact Or.inr (fun he => h' (by omega))
                                          · exact Or.inl (fun he => h' (by omega))) hdist2)
        (by simp; omega) (by rw [List.getD_eq_getElem _ _ (by simp; omega)]
                             rw [List.getElem_replicate]
                             simp
                             omega)
    · intro i j hi hj hnone
      refine (foldl_gridSet_absent _ _ _ vals.cells _ i j ?_).trans
        (frameCell_replicate_none _ _ i j)
      intro c hc ⟨h1, h2⟩
      obtain ⟨hx1, hx2, hy1, hy2⟩ := hin2 c hc
      exact hnone c hc ⟨by omega, by omega⟩

/-- Claim C2 witness: the amended theorem at the spec's scenario — the
2×2 range `(0,0)-(1,1)` over `"Sheet1"` with the host returning only
the cell `(0,0,"a",text)`. -/
theorem c2_fetch_amended_witness :
    (((getCells (0, 0) (1, 1) (some "Sheet1") false [JsCell.mk 0 0 "a" "text"]).1 =
        scanOrderLog (0, 0) (1, 1) (some "Sheet1") ∧
      (∀ x y, (x, y, some "Sheet1") ∈
          (getCells (0, 0) (1, 1) (some "Sheet1") false [JsCell.mk 0 0 "a" "text"]).1 ↔
        ((0 : Int) ≤ x ∧ x ≤ 1 ∧ (0 : Int) ≤ y ∧ y ≤ 1)) ∧
      (getCells (0, 0) (1, 1) (some "Sheet1") false [JsCell.mk 0 0 "a" "text"]).1.Nodup ∧
      (getCells (0, 0) (1, 1) (some "Sheet1") false [JsCell.mk 0 0 "a" "text"]).1.Pairwise
        (fun u v => u.1 < v.1 ∨ (u.1 = v.1 ∧ u.2.1 < v.2.1))) ∧
     (∃ rows,
       (getCells (0, 0) (1, 1) (some "Sheet1") false [JsCell.mk 0 0 "a" "text"]).2 =
         .frame rows Option.none ∧
       rows.length = 2 ∧
       (∀ row ∈ rows, row.length = 2) ∧
       (∀ c ∈ [JsCell.mk 0 0 "a" "text"],
         frameCell rows (c.y - 0).toNat (c.x - 0).toNat =
           some (to_python_type_name c.value c.type_name)) ∧
       (∀ i j, i < 2 → j < 2 →
         (∀ c ∈ [JsCell.mk 0 0 "a" "text"],
           ¬((c.y - 0).toNat = i ∧ (c.x - 0).toNat = j)) →
         frameCell rows i j = Option.none)) ∧
     (∃ rows,
       process_cells_response
         ⟨Option.none, some (A1Values.mk 0 0 2 2 [A1Cell.mk 0 0 "a" 1] false)⟩ false =
         .ok (.frame rows Option.none) ∧
       rows.length = 2 ∧
       (∀ row ∈ rows, row.length = 2) ∧
       (∀ c ∈ [A1Cell.mk 0 0 "a" 1],
         frameCell rows (c.y - 0).toNat (c.x - 0).toNat =
           some (to_python_type_df c.v c.t)) ∧
       (∀ i j, i < 2 → j < 2 →
         (∀ c ∈ [A1Cell.mk 0 0 "a" 1],
           ¬((c.y - 0).toNat = i ∧ (c.x - 0).toNat = j)) →
         frameCell rows i j = Option.none))) :=
  c2_fetch_amended (0, 0) (1, 1) (some "Sheet1") [JsCell.mk 0 0 "a" "text"]
    (A1Values.mk 0 0 2 2 [A1Cell.mk 0 0 "a" 1] false)
    (by omega) (by omega) (by decide) (by simp) (by decide) (by decide) rfl
    (by decide) (by simp)
